import Mathlib

/-!
# Verification of the Scrivener → Codex projection engine

A shallow embedding of the core of `scripts/scrivener/scrivener_file_writer.py`
and `scripts/scrivener/rtf_converter.py`, together with theorems settling the
frozen behavioural claims about the projection engine.

Modelling conventions:
* Python strings are modelled as `List Char` (`Str`).  Python's Unicode-aware
  `str.lower` and the `re` character class `\w` are modelled faithfully for all
  code points up to U+00FF (Basic Latin and Latin-1, per Python 3's Unicode
  semantics); code points above U+00FF are treated as non-cased word
  characters, which is the behaviour of the overwhelming majority of such code
  points.  Every concrete evaluation below stays inside the faithful range.
* Filesystem paths are modelled as lists of path segments (`FPath`);
  `output_dir` is the empty path, `dir / name` is `dir ++ [name]`.
* Serialisation by `yaml.dump` / `json.dumps` is not modelled at byte level:
  a written file stores the structured document that the writer passes to the
  serialiser (`FContent`).  The constant `patterns` block of index documents
  (include `**/*.md`, exclude `_drafts/**`) is the same for every index and is
  therefore not carried in the model.
* The mutable `ScrivenerFileWriter` object is modelled as a state record
  (`WState`) threaded through the write functions; the wall-clock timestamp
  `datetime.now().isoformat()` is an explicit parameter `now`.
-/

/-- Python strings, modelled as lists of characters. -/
abbrev Str := List Char

/-- Coerce a Lean string literal into the model. -/
def str (s : String) : Str := s.toList

/-- `str.lower` of Python 3, character-wise, faithful on code points ≤ U+00FF:
ASCII `A`–`Z` and Latin-1 `À`–`Þ` (except `×`) map 32 code points up; all other
code points in the modelled range are fixed by `lower`.  Code points above
U+00FF are treated as fixed. -/
def pyLower (c : Char) : Char :=
  let n := c.toNat
  if (65 ≤ n ∧ n ≤ 90) ∨ (192 ≤ n ∧ n ≤ 222 ∧ n ≠ 215) then Char.ofNat (n + 32) else c

/-- The Python `re` class `\w` (Unicode mode), faithful on code points ≤ U+00FF:
ASCII alphanumerics and `_`, plus the Latin-1 letters/numerics
(ª ² ³ µ ¹ º ¼ ½ ¾ and À–ÿ except × ÷).  Code points above U+00FF are treated
as word characters. -/
def pyIsWordChar (c : Char) : Bool :=
  let n := c.toNat
  (97 ≤ n && n ≤ 122) || (65 ≤ n && n ≤ 90) || (48 ≤ n && n ≤ 57) || n == 95 ||
  n == 0xAA || n == 0xB2 || n == 0xB3 || n == 0xB5 || n == 0xB9 || n == 0xBA ||
  (0xBC ≤ n && n ≤ 0xBE) || (0xC0 ≤ n && n ≤ 0xFF && n != 0xD7 && n != 0xF7) ||
  0x100 ≤ n

/-- The Python `re` class `\s` / `str.isspace` on the modelled range:
space, `\t`, `\n`, `\v`, `\f`, `\r`, the C1 separators 0x1C–0x1F, NEL (0x85)
and NBSP (0xA0). -/
def pyIsSpace (c : Char) : Bool :=
  let n := c.toNat
  n == 32 || (9 ≤ n && n ≤ 13) || (0x1C ≤ n && n ≤ 0x1F) || n == 0x85 || n == 0xA0

/-- Worker for `subRuns`: `inRun` records whether the previous character was
part of a run of the class being replaced (in which case further characters of
the run are dropped rather than emitting `r` again). -/
def subRunsGo (p : Char → Bool) (r : Char) : Bool → Str → Str
  | _, [] => []
  | inRun, c :: cs =>
    if p c then
      if inRun then subRunsGo p r true cs
      else r :: subRunsGo p r true cs
    else c :: subRunsGo p r false cs

/-- `re.sub(q, r, l)` where `q` is `p` repeated one or more times, for a
single-character class `p`: every maximal run of characters satisfying `p` is
replaced by the single character `r`. -/
def subRuns (p : Char → Bool) (r : Char) (l : Str) : Str :=
  subRunsGo p r false l

/-- The character class kept by `re.sub(r'[^\w\s-]', '', ·)`. -/
def keepChar (c : Char) : Bool := pyIsWordChar c || pyIsSpace c || c = '-'

/-- The character class `[\s_]`. -/
def spaceUnd (c : Char) : Bool := pyIsSpace c || c = '_'

/-- The character class `[-]`. -/
def hyph (c : Char) : Bool := c = '-'

/-- Python `slug.strip('-')`. -/
def stripHyphens (l : Str) : Str :=
  (l.dropWhile hyph).rdropWhile hyph

/-- `ScrivenerFileWriter._slugify` without the final `or "untitled"` fallback:
lowercase, drop characters outside `\w`/`\s`/`-`, replace `[\s_]+` runs by `-`,
collapse `-+` runs, strip leading/trailing hyphens. -/
def slugifyCore (t : Str) : Str :=
  let s1 := t.map pyLower
  let s2 := s1.filter keepChar
  let s3 := subRuns spaceUnd '-' s2
  let s4 := subRuns hyph '-' s3
  stripHyphens s4

/-- `ScrivenerFileWriter._slugify`. -/
def slugify (t : Str) : Str :=
  let s := slugifyCore t
  if s = [] then str "untitled" else s

/-- A binder item as produced by `scrivener_parser.py` after metadata
resolution and RTF conversion (`BinderItem` dataclass). -/
structure BItem where
  uuid : Str
  itemType : Str
  title : Str
  label : Option Str := none
  status : Option Str := none
  keywords : List Str := []
  synopsis : Option Str := none
  includeInCompile : Bool := true
  convertedContent : Option Str := none
  children : List BItem

/-- Project-level fields consumed by the writer (`ScrivenerProject`). -/
structure SProject where
  identifier : Str := []
  author : Str := []
  title : Str := []
  binderItems : List BItem := []

/-- Python truthiness of an `Optional[str]` field (`None` and `""` are falsy). -/
def pyTruthy : Option Str → Bool
  | none => false
  | some s => s ≠ []

/-- An optional field as recorded by the writer: present iff truthy. -/
def optTruthy (o : Option Str) : Option Str :=
  if pyTruthy o then o else none

/-- Lowercase a string, character-wise (`str.lower`). -/
def lowerStr (s : Str) : Str := s.map pyLower

/-- Python `sub in s` substring test. -/
def strContains (s sub : Str) : Bool := s.tails.any (fun t => sub.isPrefixOf t)

/-- Python `s.startswith(pre)`. -/
def strStarts (s pre : Str) : Bool := pre.isPrefixOf s

/-- `ScrivenerFileWriter._map_type`: map a binder item to its semantic Codex
type, label substrings first, then title prefixes, then structural kind. -/
def mapType (item : BItem) : Str :=
  let fromLabel : Option Str :=
    match item.label with
    | some lbl =>
      if lbl ≠ [] then
        let ll := lowerStr lbl
        if strContains ll (str "chapter") then some (str "chapter")
        else if strContains ll (str "scene") then some (str "scene")
        else if strContains ll (str "character") then some (str "character")
        else if strContains ll (str "location") then some (str "location")
        else if strContains ll (str "act") then some (str "act")
        else if strContains ll (str "part") then some (str "part")
        else if strContains ll (str "book") then some (str "book")
        else none
      else none
    | none => none
  match fromLabel with
  | some t => t
  | none =>
    let tl := lowerStr item.title
    if strStarts tl (str "chapter") then str "chapter"
    else if strStarts tl (str "scene") then str "scene"
    else if strStarts tl (str "act") then str "act"
    else if strStarts tl (str "book") then str "book"
    else if strStarts tl (str "part") then str "part"
    else if item.itemType = str "Folder" ∨ item.itemType = str "DraftFolder" then str "folder"
    else str "document"

/-- The ordered label keyword list of spec §4.1 step 1. -/
def labelOrder : List Str :=
  [str "chapter", str "scene", str "character", str "location",
   str "act", str "part", str "book"]

/-- The ordered title prefix list of spec §4.1 step 2. -/
def titleOrder : List Str :=
  [str "chapter", str "scene", str "act", str "book", str "part"]

/-- The nine semantic types of spec §4.1. -/
def semanticTypes : List Str :=
  [str "chapter", str "scene", str "character", str "location", str "act",
   str "part", str "book", str "folder", str "document"]

/-- Modelled from the spec's words (§4.1): classification as an ordered
first-match search, used as the specification side of the refinement claim
about `mapType`. -/
def classifySpec (item : BItem) : Str :=
  let fromLabel : Option Str :=
    match item.label with
    | some lbl => labelOrder.find? (fun k => strContains (lowerStr lbl) k)
    | none => none
  match fromLabel with
  | some t => t
  | none =>
    match titleOrder.find? (fun k => strStarts (lowerStr item.title) k) with
    | some t => t
    | none =>
      if item.itemType = str "Folder" ∨ item.itemType = str "DraftFolder" then str "folder"
      else str "document"

/-- Writer configuration (`ScrivenerFileWriter.__init__` arguments, plus the
ambient availability of PyYAML). -/
structure Config where
  format : Str := str "markdown"
  dryRun : Bool := false
  indexDepth : Nat := 1
  containers : List Str := [str "act", str "part", str "book", str "folder"]
  contentTypes : List Str := [str "chapter", str "scene", str "document"]
  yamlAvail : Bool := true
deriving DecidableEq

/-- `ScrivenerFileWriter._is_container`. -/
def isContainer (cfg : Config) (item : BItem) : Bool :=
  cfg.containers.contains (mapType item) ||
  item.itemType = str "Folder" || item.itemType = str "DraftFolder"

/-- `ScrivenerFileWriter._is_content`. -/
def isContent (cfg : Config) (item : BItem) : Bool :=
  cfg.contentTypes.contains (mapType item) || item.itemType = str "Text"

/-- `ScrivenerFileWriter._get_extension`. -/
def getExtension (cfg : Config) : Str :=
  if cfg.format = str "markdown" then str ".md"
  else if cfg.format = str "yaml" then str ".codex.yaml"
  else str ".codex.json"


/-! ## The file writer -/

/-- Output paths, as segments below `output_dir` (the empty path). -/
abbrev FPath := List Str

/-- A Python value appearing in a frontmatter mapping. -/
inductive PyVal where
  | s (v : Str)
  | b (v : Bool)

/-- Python `repr` of a frontmatter value.  `repr` of a string is modelled for
strings free of quotes, backslashes and control characters (the only ones the
fallback rendering is evaluated on here). -/
def pyRepr : PyVal → Str
  | PyVal.s v => '\'' :: (v ++ ['\''])
  | PyVal.b v => if v then str "True" else str "False"

/-- The frontmatter part of a rendered Markdown document: either handed to
`yaml.dump` or rendered by the simple `k: repr(v)` fallback. -/
inductive MDFront where
  | viaYaml (fm : List (Str × PyVal))
  | fallback (s : Str)

/-- A rendered Codex Lite (Markdown) document: the file content is
`---\n{front}\n---\n\n# {title}\n\n{body}\n`. -/
structure MDDoc where
  front : MDFront
  title : Str
  body : Str

/-- The structured document built by `_build_codex_data` (serialised by
`yaml.dump` / `json.dumps`).  An empty `attributes` list models the absent
`attributes` key. -/
structure CodexDoc where
  created : Str
  id : Str
  type : Str
  name : Str
  attributes : List (Str × Str)
  summary : Option Str
  body : Option Str

/-- One entry of an index document's `children` array: an `{include: path}`
pointer, or an inlined child object whose optional keys are present exactly
when the writer sets them. -/
inductive IChild where
  | includePtr (path : Str)
  | inline (id : Str) (type : Str) (name : Str) (summary : Option Str)
      (label : Option Str) (children : Option (List IChild))

/-- An index document (`index.codex.yaml`), either a container's sub-index or
the master index (they differ in their metadata/optional fields). -/
structure IndexDoc where
  master : Bool
  id : Str
  type : Str
  name : Str
  children : List IChild
  summary : Option Str := none
  label : Option Str := none
  status : Option Str := none
  author : Option Str := none
  source : Option Str := none

/-- What gets written for a file: content documents or index documents. -/
inductive FContent where
  | markdown (d : MDDoc)
  | codexYaml (d : CodexDoc)
  | codexJson (d : CodexDoc)
  | indexYaml (d : IndexDoc)

/-- The mutable state of a `ScrivenerFileWriter`, plus the performed
filesystem effects: `files` lists the writes in chronological order. -/
structure WState where
  filesWritten : Nat := 0
  dirsCreated : Nat := 0
  errors : List Str := []
  files : List (FPath × FContent) := []
  dirs : List FPath := []
  indexFilesCreated : List FPath := []

/-- Python `", ".join(keywords)`. -/
def joinCommaSp (l : List Str) : Str := List.intercalate (str ", ") l

/-- The frontmatter mapping assembled by `_build_markdown` (insertion order). -/
def buildFrontmatter (item : BItem) : List (Str × PyVal) :=
  [(str "type", PyVal.s (mapType item)), (str "name", PyVal.s item.title)]
  ++ (if pyTruthy item.label then [(str "scrivener_label", PyVal.s (item.label.getD []))] else [])
  ++ (if pyTruthy item.status then [(str "scrivener_status", PyVal.s (item.status.getD []))] else [])
  ++ (if item.keywords ≠ [] then [(str "tags", PyVal.s (joinCommaSp item.keywords))] else [])
  ++ (if pyTruthy item.synopsis then [(str "summary", PyVal.s (item.synopsis.getD []))] else [])
  ++ (if item.includeInCompile then [] else [(str "scrivener_include_in_compile", PyVal.b false)])

/-- The fallback frontmatter rendering used when PyYAML is unavailable:
`"\n".join(f"{k}: {repr(v)}")`. -/
def fallbackFM (fm : List (Str × PyVal)) : Str :=
  List.intercalate (str "\n") (fm.map (fun kv => kv.1 ++ str ": " ++ pyRepr kv.2))

/-- `ScrivenerFileWriter._build_markdown`. -/
def buildMarkdown (cfg : Config) (item : BItem) : MDDoc :=
  let fm := buildFrontmatter item
  { front := if cfg.yamlAvail then MDFront.viaYaml fm else MDFront.fallback (fallbackFM fm),
    title := item.title,
    body := item.convertedContent.getD [] }

/-- `ScrivenerFileWriter._build_codex_data`. -/
def buildCodexData (now : Str) (item : BItem) : CodexDoc :=
  { created := now, id := item.uuid, type := mapType item, name := item.title,
    attributes :=
      (if pyTruthy item.label then [(str "scrivener_label", item.label.getD [])] else [])
      ++ (if pyTruthy item.status then [(str "scrivener_status", item.status.getD [])] else [])
      ++ (if item.keywords ≠ [] then [(str "keywords", joinCommaSp item.keywords)] else [])
      ++ (if item.includeInCompile then [] else [(str "scrivener_include_in_compile", str "false")]),
    summary := optTruthy item.synopsis,
    body := if pyTruthy item.convertedContent then item.convertedContent else none }

/-- The content-building part of `_write_document`: Markdown and JSON always
render; YAML raises `ImportError` when PyYAML is unavailable. -/
def buildContent (cfg : Config) (now : Str) (item : BItem) : Except Str FContent :=
  if cfg.format = str "markdown" then Except.ok (FContent.markdown (buildMarkdown cfg item))
  else if cfg.format = str "yaml" then
    if cfg.yamlAvail then Except.ok (FContent.codexYaml (buildCodexData now item))
    else Except.error (str "PyYAML is required for YAML output. Install with: pip3 install pyyaml")
  else Except.ok (FContent.codexJson (buildCodexData now item))

/-- Render a model path the way `str(file_path)` appears in error messages
(relative to `output_dir`). -/
def renderPath (p : FPath) : Str := List.intercalate (str "/") p

/-- `ScrivenerFileWriter._write_document`: build the content, write the file
(unless dry-run) and bump the counter; a build error is caught and recorded as
a per-file error string (`f"{file_path}: {e}"`) without writing. -/
def writeDocument (cfg : Config) (now : Str) (item : BItem) (dir : FPath) (st : WState) : WState :=
  let slug := slugify item.title
  let fpath := dir ++ [slug ++ getExtension cfg]
  match buildContent cfg now item with
  | Except.ok content =>
    let st := if cfg.dryRun then st else { st with files := st.files ++ [(fpath, content)] }
    { st with filesWritten := st.filesWritten + 1 }
  | Except.error e =>
    { st with errors := st.errors ++ [renderPath fpath ++ str ": " ++ e] }

mutual

/-- Body of the loop of `_collect_files` for one binder item. -/
def collectFilesItem (cfg : Config) : BItem → FPath → List FPath
  | ⟨_, ty, ti, _, _, _, _, _, _, ch⟩, parent =>
    if ty = str "Trash" ∨ ty = str "Root" then []
    else
      let slug := slugify ti
      if ty = str "Folder" ∨ ty = str "DraftFolder" then
        collectFilesList cfg ch (parent ++ [slug])
      else if ty = str "Text" then
        (parent ++ [slug ++ getExtension cfg]) :: collectFilesList cfg ch parent
      else []

/-- `ScrivenerFileWriter._collect_files`. -/
def collectFilesList (cfg : Config) : List BItem → FPath → List FPath
  | [], _ => []
  | i :: rest, parent => collectFilesItem cfg i parent ++ collectFilesList cfg rest parent

end

/-- `ScrivenerFileWriter.preview_files`. -/
def previewFiles (cfg : Config) (proj : SProject) : List FPath :=
  collectFilesList cfg proj.binderItems []

mutual

/-- Body of the loop of `_build_children_with_includes` for one binder item.
Note that `parentDir` is carried exactly as in the source, which computes it
but never uses it when emitting a content `include` pointer. -/
def buildChildItem (cfg : Config) : BItem → FPath → Nat → List IChild
  | ⟨u, ty, ti, la, sta, kw, sy, ic, cc, ch⟩, parentDir, depth =>
    let item : BItem := ⟨u, ty, ti, la, sta, kw, sy, ic, cc, ch⟩
    if ty = str "Trash" ∨ ty = str "TrashFolder" ∨ ty = str "Root" then []
    else
      let slug := slugify ti
      if isContainer cfg item then
        if depth < cfg.indexDepth then
          [IChild.includePtr (str "./" ++ slug ++ str "/index.codex.yaml")]
        else
          [IChild.inline u (mapType item) ti (optTruthy sy) (optTruthy la)
            (if ch.isEmpty then none
             else some (buildChildList cfg ch (parentDir ++ [slug]) (depth + 1)))]
      else if isContent cfg item then
        IChild.includePtr (str "./" ++ slug ++ getExtension cfg)
          :: buildChildList cfg ch parentDir depth
      else []

/-- `ScrivenerFileWriter._build_children_with_includes`. -/
def buildChildList (cfg : Config) : List BItem → FPath → Nat → List IChild
  | [], _, _ => []
  | i :: rest, parentDir, depth =>
    buildChildItem cfg i parentDir depth ++ buildChildList cfg rest parentDir depth

end

/-- The index document `_write_nested_index` assembles for a container. -/
def nestedIndexDoc (cfg : Config) (item : BItem) (dir : FPath) (depth : Nat) : IndexDoc :=
  { master := false, id := item.uuid, type := mapType item, name := item.title,
    children := buildChildList cfg item.children dir depth,
    summary := optTruthy item.synopsis,
    label := optTruthy item.label,
    status := optTruthy item.status }

/-- `ScrivenerFileWriter._write_nested_index`: write a container's own
`index.codex.yaml` (skipped when PyYAML is unavailable or on dry-run). -/
def writeNestedIndex (cfg : Config) (item : BItem) (dir : FPath) (depth : Nat) (st : WState) : WState :=
  if ¬ cfg.yamlAvail then st
  else
    let doc : IndexDoc := nestedIndexDoc cfg item dir depth
    if cfg.dryRun then st
    else { st with files := st.files ++ [(dir ++ [str "index.codex.yaml"], FContent.indexYaml doc)],
                   filesWritten := st.filesWritten + 1 }

mutual

/-- Body of the loop of `_write_nested_items` for one binder item. -/
def writeNestedItem (cfg : Config) (now : Str) : BItem → FPath → Nat → WState → WState
  | ⟨u, ty, ti, la, sta, kw, sy, ic, cc, ch⟩, dir, depth, st =>
    let item : BItem := ⟨u, ty, ti, la, sta, kw, sy, ic, cc, ch⟩
    if ty = str "Trash" ∨ ty = str "TrashFolder" ∨ ty = str "Root" then st
    else
      let slug := slugify ti
      if isContainer cfg item then
        let fdir := dir ++ [slug]
        let st := if cfg.dryRun then st
                  else { st with dirs := st.dirs ++ [fdir], dirsCreated := st.dirsCreated + 1 }
        let st :=
          if depth < cfg.indexDepth then
            let st := writeNestedIndex cfg item fdir (depth + 1) st
            { st with indexFilesCreated := st.indexFilesCreated ++ [fdir ++ [str "index.codex.yaml"]] }
          else st
        writeNestedList cfg now ch fdir (depth + 1) st
      else if isContent cfg item then
        let st := writeDocument cfg now item dir st
        writeNestedList cfg now ch dir depth st
      else st

/-- `ScrivenerFileWriter._write_nested_items`. -/
def writeNestedList (cfg : Config) (now : Str) : List BItem → FPath → Nat → WState → WState
  | [], _, _, st => st
  | i :: rest, dir, depth, st =>
    writeNestedList cfg now rest dir depth (writeNestedItem cfg now i dir depth st)

end

/-- The loop of `_write_master_index` that assembles the master `children`
array from the top-level manuscript items. -/
def masterChildren (cfg : Config) : List BItem → List IChild
  | [] => []
  | item :: rest =>
    (if item.itemType = str "Trash" ∨ item.itemType = str "TrashFolder" ∨
        item.itemType = str "Root" then []
     else
      let slug := slugify item.title
      if isContainer cfg item ∧ 0 < cfg.indexDepth then
        [IChild.includePtr (str "./" ++ slug ++ str "/index.codex.yaml")]
      else if isContainer cfg item then
        [IChild.inline item.uuid (mapType item) item.title none none
          (if item.children.isEmpty then none
           else some (buildChildList cfg item.children [slug] 1))]
      else if isContent cfg item then
        [IChild.includePtr (str "./" ++ slug ++ getExtension cfg)]
      else [])
    ++ masterChildren cfg rest

/-- The master index document `_write_master_index` assembles. -/
def masterIndexDoc (cfg : Config) (proj : SProject) (manuscriptItems : List BItem) : IndexDoc :=
  { master := true,
    id := if proj.identifier ≠ [] then proj.identifier else str "project-root",
    type := str "index",
    name := proj.title,
    children := masterChildren cfg manuscriptItems,
    author := if proj.author ≠ [] then some proj.author else none,
    source := some (proj.title ++ str ".scriv") }

/-- `ScrivenerFileWriter._write_master_index`. -/
def writeMasterIndex (cfg : Config) (proj : SProject) (manuscriptItems : List BItem) (st : WState) : WState :=
  if ¬ cfg.yamlAvail then st
  else
    let doc : IndexDoc := masterIndexDoc cfg proj manuscriptItems
    if cfg.dryRun then st
    else { st with files := st.files ++ [([str "index.codex.yaml"], FContent.indexYaml doc)],
                   filesWritten := st.filesWritten + 1 }

/-- The manuscript predicate of `write_project_nested`. -/
def isManuscript (item : BItem) : Bool :=
  if item.itemType = str "Trash" ∨ item.itemType = str "TrashFolder" ∨
     item.itemType = str "ResearchFolder" ∨ item.itemType = str "Root" then false
  else if strStarts (lowerStr item.title) (str "template") then false
  else true

/-- The top-level manuscript filter of `write_project_nested`. -/
def manuscriptFilter (items : List BItem) : List BItem := items.filter isManuscript

/-- `ScrivenerFileWriter.write_project_nested`. -/
def writeProjectNested (cfg : Config) (now : Str) (proj : SProject) : WState :=
  let st : WState := {}
  let st := if cfg.dryRun then st
            else { st with dirs := st.dirs ++ [[]], dirsCreated := st.dirsCreated + 1 }
  let manuscriptItems := manuscriptFilter proj.binderItems
  let st := writeNestedList cfg now manuscriptItems [] 0 st
  writeMasterIndex cfg proj manuscriptItems st

/-! ## Observations on a run -/

/-- All file paths written, in order. -/
def writtenPaths (st : WState) : List FPath := st.files.map Prod.fst

/-- Is a write a content file (as opposed to an index document)? -/
def isContentWrite : FContent → Bool
  | FContent.indexYaml _ => false
  | _ => true

/-- Paths of the content files written, in order. -/
def contentFilePaths (st : WState) : List FPath :=
  (st.files.filter (fun f => isContentWrite f.2)).map Prod.fst

/-- Is a write an index document? -/
def isIndexWrite : FContent → Bool
  | FContent.indexYaml _ => true
  | _ => false

/-- Paths of the index documents written, in order. -/
def indexFilePaths (st : WState) : List FPath :=
  (st.files.filter (fun f => isIndexWrite f.2)).map Prod.fst

/-- The index document on disk at path `p` after the run (last write wins). -/
def docAt (st : WState) (p : FPath) : Option IndexDoc :=
  match ((st.files.filter (fun f => decide (f.1 = p))).map Prod.snd).getLast? with
  | some (FContent.indexYaml d) => some d
  | _ => none

/-- The `children` array of the index document at `p`, if any. -/
def indexChildrenAt (st : WState) (p : FPath) : Option (List IChild) :=
  (docAt st p).map IndexDoc.children

mutual

/-- The ids of the inlined child objects of one index child, recursively. -/
def inlineIdsOne : IChild → List Str
  | IChild.includePtr _ => []
  | IChild.inline u _ _ _ _ none => [u]
  | IChild.inline u _ _ _ _ (some l) => u :: inlineIdsList l

/-- The ids of all inlined child objects in a `children` array. -/
def inlineIdsList : List IChild → List Str
  | [] => []
  | c :: rest => inlineIdsOne c ++ inlineIdsList rest

end

/-- All inlined-container ids across every index document written. -/
def allInlineIds : List (FPath × FContent) → List Str
  | [] => []
  | (_, FContent.indexYaml d) :: rest => inlineIdsList d.children ++ allInlineIds rest
  | _ :: rest => allInlineIds rest

/-- Resolve an `{include: "./..."}` pointer against the directory that holds
the index document containing it. -/
def resolveInclude (docDir : FPath) (ptr : Str) : FPath :=
  docDir ++ (ptr.drop 2).splitOn '/'

/-! ## Concrete projects used by the claim theorems -/

/-- Build a binder item with the fields the examples need. -/
def sampleItem (u ty ti : String) (la : Option String) (ch : List BItem) : BItem :=
  ⟨str u, str ty, str ti, la.map str, none, [], none, true, none, ch⟩

/-- A project whose binder is a single `Text` item titled "Act One". -/
def projActText : SProject := { binderItems := [sampleItem "u-act" "Text" "Act One" none []] }

/-- The default writer configuration used by the CLI: markdown, nested,
`index_depth = 1`, default container/content types, PyYAML available. -/
def defaultCfg : Config := {}

/-- The default configuration with `index_depth = 0`. -/
def cfgDepth0 : Config := { indexDepth := 0 }

/-- The two-level round-trip tree of spec §8: root → Folder "Act One" →
Text "Chapter 1" (label "Chapter") → Text "Scene A" (label "Scene"). -/
def projTwoLevel : SProject := { binderItems :=
  [sampleItem "u-a1" "Folder" "Act One" none
    [sampleItem "u-c1" "Text" "Chapter 1" (some "Chapter")
      [sampleItem "u-s1" "Text" "Scene A" (some "Scene") []]]] }

/-- Folder "Act One" containing Text "Scene A". -/
def projActScene : SProject := { binderItems :=
  [sampleItem "u-a1" "Folder" "Act One" none [sampleItem "u-s1" "Text" "Scene A" none []]] }

/-- Folder "Act One" containing a `ResearchFolder` named "Research". -/
def projResearchNested : SProject := { binderItems :=
  [sampleItem "u-a1" "Folder" "Act One" none
    [sampleItem "u-r" "ResearchFolder" "Research" none []]] }

/-- The container child of `projContentChild`. -/
def notesFolder : BItem := sampleItem "u-notes" "Folder" "Notes" none []

/-- A top-level `Text` "Chapter 1" owning a Folder "Notes". -/
def projContentChild : SProject := { binderItems :=
  [sampleItem "u-ch" "Text" "Chapter 1" none [notesFolder]] }

/-- Membership in the claimed slug alphabet `[a-z0-9-]`. -/
def isSlugChar (c : Char) : Bool :=
  (97 ≤ c.toNat && c.toNat ≤ 122) || (48 ≤ c.toNat && c.toNat ≤ 57) || c = '-'

/-- ASCII alphanumeric characters (the characters `slugify` can keep from an
ASCII title). -/
def isAsciiAlnum (c : Char) : Bool :=
  (97 ≤ c.toNat && c.toNat ≤ 122) || (65 ≤ c.toNat && c.toNat ≤ 90) ||
  (48 ≤ c.toNat && c.toNat ≤ 57)

/-- A `Trash` binder item, used to witness the inert-kind theorem. -/
def trashSample : BItem := sampleItem "u-trash" "Trash" "Trash" none []

/-! ## The RTF conversion cascade (`rtf_converter.py`) -/

/-- The conversion methods of `RTFConverter`. -/
inductive RMethod where
  | striprtf
  | pandoc
  | raw
deriving DecidableEq

/-- The state of one file in the converter's filesystem view. -/
inductive FileState where
  | missing
  | unreadable (msg : Str)
  | readable (content : Str)
deriving DecidableEq

/-- Outcome of one `subprocess.run(["pandoc", ...])` call: normal exit with
stdout, non-zero exit with stderr, `TimeoutExpired`, missing binary
(`FileNotFoundError`), or any other exception escaping `subprocess.run`
(e.g. an `OSError`), which `_convert_with_pandoc` does not catch. -/
inductive PandocOutcome where
  | ok (stdout : Str)
  | fail (stderr : Str)
  | timeout
  | notFound
  | raised (msg : Str)

/-- The converter's environment: availability of the two external methods, the
filesystem, and the behaviour of the external tools (an `Except.error` from
`rtfToText` models an exception raised by the striprtf library). -/
structure REnv where
  pandocAvailable : Bool
  striprtfAvailable : Bool
  file : Str → FileState
  pandocRun : Str → PandocOutcome
  rtfToText : Str → Except Str Str

/-- `RTFConverter._validate_method`: downgrade unavailable methods at
construction time (pandoc → striprtf → raw). -/
def validateMethod (env : REnv) (m : RMethod) : RMethod :=
  let m := if m = RMethod.pandoc ∧ ¬env.pandocAvailable then RMethod.striprtf else m
  if m = RMethod.striprtf ∧ ¬env.striprtfAvailable then RMethod.raw else m

/-- Python `line.strip()` (whitespace strip at both ends). -/
def pyStrip (l : Str) : Str :=
  (l.dropWhile pyIsSpace).rdropWhile pyIsSpace

/-- The consecutive-blank-line dropping loop of `_clean_markdown` (keeps the
original lines). -/
def collapseBlankAux : Bool → List Str → List Str
  | _, [] => []
  | prevBlank, line :: rest =>
    let isBlank := (pyStrip line).isEmpty
    if isBlank ∧ prevBlank then collapseBlankAux prevBlank rest
    else line :: collapseBlankAux isBlank rest

/-- The analogous loop of `_text_to_markdown` (keeps the stripped lines). -/
def collapseStripAux : Bool → List Str → List Str
  | _, [] => []
  | prevBlank, line :: rest =>
    let stripped := pyStrip line
    let isBlank := stripped.isEmpty
    if isBlank ∧ prevBlank then collapseStripAux prevBlank rest
    else stripped :: collapseStripAux isBlank rest

/-- Python `content.split("\n\n")` (leftmost-first, separator consumed). -/
def splitNN : Str → List Str
  | [] => [[]]
  | '\n' :: '\n' :: rest => [] :: splitNN rest
  | c :: rest =>
    match splitNN rest with
    | [] => [[c]]
    | p :: ps => (c :: p) :: ps

/-- `RTFConverter._clean_markdown`. -/
def cleanMarkdown (md : Str) : Str :=
  pyStrip (List.intercalate (str "\n") (collapseBlankAux false (md.splitOn '\n')))

/-- `RTFConverter._text_to_markdown`. -/
def textToMarkdown (t : Str) : Str :=
  let cleaned := collapseStripAux false (t.splitOn '\n')
  let content := List.intercalate (str "\n") cleaned
  let paragraphs := ((splitNN content).map pyStrip).filter (fun p => !p.isEmpty)
  List.intercalate (str "\n\n") paragraphs

/-- `RTFConverter._get_raw`: `read_text` with `errors="replace"`; any failure
(including a missing file) is caught and turned into a bracketed error
string mentioning the exception. -/
def getRaw (env : REnv) (p : Str) : Str :=
  match env.file p with
  | FileState.readable c => c
  | FileState.unreadable e => str "[Read error: " ++ e ++ str "]"
  | FileState.missing => str "[Read error: " ++ p ++ str "]"

/-- `RTFConverter._convert_with_striprtf`: import and call the library,
falling back to `_get_raw` when the library is unavailable, the read fails,
or `rtf_to_text` raises. -/
def convertWithStriprtf (env : REnv) (p : Str) : Str :=
  if ¬env.striprtfAvailable then getRaw env p
  else
    match env.file p with
    | FileState.readable c =>
      match env.rtfToText c with
      | Except.ok t => textToMarkdown t
      | Except.error _ => getRaw env p
    | _ => getRaw env p

/-- `RTFConverter._convert_with_pandoc`: zero exit → clean the stdout;
non-zero exit, timeout or missing binary → per-call fallback to striprtf; any
other exception escapes this function (to be caught by `convert`). -/
def convertWithPandoc (env : REnv) (p : Str) : Except Str Str :=
  match env.pandocRun p with
  | PandocOutcome.ok out => Except.ok (cleanMarkdown out)
  | PandocOutcome.fail _ => Except.ok (convertWithStriprtf env p)
  | PandocOutcome.timeout => Except.ok (convertWithStriprtf env p)
  | PandocOutcome.notFound => Except.ok (convertWithStriprtf env p)
  | PandocOutcome.raised e => Except.error e

/-- The method dispatch inside the `try` of `RTFConverter.convert`; an
`Except.error` is an exception reaching the `try`. -/
def convertBody (env : REnv) (m : RMethod) (p : Str) : Except Str Str :=
  match m with
  | RMethod.pandoc => convertWithPandoc env p
  | RMethod.striprtf => Except.ok (convertWithStriprtf env p)
  | RMethod.raw => Except.ok (getRaw env p)

/-- `RTFConverter.convert`: a missing file yields the empty string; otherwise
the configured method runs and every exception is caught, producing a
bracketed conversion-error string. -/
def rtfConvert (env : REnv) (m : RMethod) (p : Str) : Str :=
  match env.file p with
  | FileState.missing => []
  | _ =>
    match convertBody env m p with
    | Except.ok s => s
    | Except.error e => str "[Conversion error: " ++ e ++ str "]"

/-- A concrete converter environment with no external methods available and a
single readable file `"f"` containing `"hello"`. -/
def sampleREnv : REnv :=
  { pandocAvailable := false, striprtfAvailable := false,
    file := fun p => if p = str "f" then FileState.readable (str "hello") else FileState.missing,
    pandocRun := fun _ => PandocOutcome.notFound,
    rtfToText := fun _ => Except.error (str "unavailable") }

/-- YAML output format with PyYAML missing. -/
def cfgYamlNoLib : Config := { format := str "yaml", yamlAvail := false }

/-- Markdown output with PyYAML missing. -/
def cfgMdNoLib : Config := { yamlAvail := false }

/-! ## Traversal skeleton for the index-depth analysis -/

mutual

/-- The container nodes reached from one binder item, following the traversal
rule of spec section 4.4: each record carries the container's directory, the
traversal depth at which it is reached, its uuid, and the directory of its
nearest index-owning ancestor (`[]` when the master index is the nearest
owner). -/
def containerInfoItem (cfg : Config) :
    BItem → FPath → Nat → FPath → List (FPath × Nat × Str × FPath)
  | ⟨u, ty, ti, la, sta, kw, sy, ic, cc, ch⟩, dir, depth, owner =>
    let item : BItem := ⟨u, ty, ti, la, sta, kw, sy, ic, cc, ch⟩
    if ty = str "Trash" ∨ ty = str "TrashFolder" ∨ ty = str "Root" then []
    else
      let slug := slugify ti
      if isContainer cfg item then
        let fdir := dir ++ [slug]
        let owner2 := if depth < cfg.indexDepth then fdir else owner
        (fdir, depth, u, owner) :: containerInfoList cfg ch fdir (depth + 1) owner2
      else if isContent cfg item then
        containerInfoList cfg ch dir depth owner
      else []

/-- `containerInfoItem` over a list of binder items. -/
def containerInfoList (cfg : Config) :
    List BItem → FPath → Nat → FPath → List (FPath × Nat × Str × FPath)
  | [], _, _, _ => []
  | i :: rest, dir, depth, owner =>
    containerInfoItem cfg i dir depth owner ++ containerInfoList cfg rest dir depth owner

end

mutual

/-- The chronological list of file writes `_write_nested_items` performs for
one binder item when PyYAML is available and dry-run is off (owned index
documents and content documents). -/
def nestedWritesItem (cfg : Config) (now : Str) : BItem → FPath → Nat → List (FPath × FContent)
  | ⟨u, ty, ti, la, sta, kw, sy, ic, cc, ch⟩, dir, depth =>
    let item : BItem := ⟨u, ty, ti, la, sta, kw, sy, ic, cc, ch⟩
    if ty = str "Trash" ∨ ty = str "TrashFolder" ∨ ty = str "Root" then []
    else
      let slug := slugify ti
      if isContainer cfg item then
        let fdir := dir ++ [slug]
        (if depth < cfg.indexDepth then
          [(fdir ++ [str "index.codex.yaml"],
            FContent.indexYaml (nestedIndexDoc cfg item fdir (depth + 1)))]
         else [])
        ++ nestedWritesList cfg now ch fdir (depth + 1)
      else if isContent cfg item then
        (match buildContent cfg now item with
         | Except.ok content => [(dir ++ [slugify ti ++ getExtension cfg], content)]
         | Except.error _ => [])
        ++ nestedWritesList cfg now ch dir depth
      else []

/-- `nestedWritesItem` over a list of binder items. -/
def nestedWritesList (cfg : Config) (now : Str) : List BItem → FPath → Nat → List (FPath × FContent)
  | [], _, _ => []
  | i :: rest, dir, depth =>
    nestedWritesItem cfg now i dir depth ++ nestedWritesList cfg now rest dir depth

end

/-! ## C1 — dry-run preview versus the nested run -/

/-- C1: the dry-run preview does not enumerate the file set of a nested-mode
run.  On a project whose binder is the single `Text` item "Act One" under the
default configuration, `preview_files` announces the content file
`act-one.md`, while `write_project_nested` classifies the item as an `act`
container and writes no content file at all (it creates the directory
`act-one/` and the two index documents instead). -/
theorem C1_preview_diverges_from_nested_run :
    previewFiles defaultCfg projActText = [[str "act-one.md"]]
    ∧ contentFilePaths (writeProjectNested defaultCfg [] projActText) = []
    ∧ writtenPaths (writeProjectNested defaultCfg [] projActText) =
        [[str "act-one", str "index.codex.yaml"], [str "index.codex.yaml"]] :=
  ⟨by decide, by decide, by decide⟩

/-! ## C2 — include pointers of inlined containers -/

/-- C2: include pointers recorded inside an inlined container do not name a
file relative to the directory of the index document holding them.  With
`index_depth = 0` and the tree Folder "Act One" → Text "Scene A", the master
index (at the output root) inlines "Act One" and records the pointer
`./scene-a.md`, which resolves to `scene-a.md` at the root — but the run
writes the file at `act-one/scene-a.md`. -/
theorem C2_inlined_include_points_at_missing_file :
    indexChildrenAt (writeProjectNested cfgDepth0 [] projActScene) [str "index.codex.yaml"] =
      some [IChild.inline (str "u-a1") (str "act") (str "Act One") none none
        (some [IChild.includePtr (str "./scene-a.md")])]
    ∧ resolveInclude [] (str "./scene-a.md") ∉
        writtenPaths (writeProjectNested cfgDepth0 [] projActScene)
    ∧ [str "act-one", str "scene-a.md"] ∈
        writtenPaths (writeProjectNested cfgDepth0 [] projActScene) :=
  ⟨rfl, by decide, by decide⟩

/-! ## C4 — the two-level round trip -/

/-- C4: on the two-level tree root → Folder "Act One" → Text "Chapter 1"
(label "Chapter") → Text "Scene A" (label "Scene"), with markdown format and
`index_depth = 1`, the run writes `act-one/index.codex.yaml` whose ordered
children are the include pointers `./chapter-1.md` and `./scene-a.md`, the
content files `act-one/chapter-1.md` and `act-one/scene-a.md`, and a root
`index.codex.yaml` whose children hold the pointer
`./act-one/index.codex.yaml`. -/
theorem C4_round_trip_two_level_tree :
    writtenPaths (writeProjectNested defaultCfg [] projTwoLevel) =
      [[str "act-one", str "index.codex.yaml"], [str "act-one", str "chapter-1.md"],
       [str "act-one", str "scene-a.md"], [str "index.codex.yaml"]]
    ∧ indexChildrenAt (writeProjectNested defaultCfg [] projTwoLevel)
        [str "act-one", str "index.codex.yaml"] =
        some [IChild.includePtr (str "./chapter-1.md"), IChild.includePtr (str "./scene-a.md")]
    ∧ indexChildrenAt (writeProjectNested defaultCfg [] projTwoLevel) [str "index.codex.yaml"] =
        some [IChild.includePtr (str "./act-one/index.codex.yaml")] :=
  ⟨by decide, rfl, rfl⟩

/-! ## C9 — inert node kinds, counterexample part -/

/-- C9 counterexample: a `ResearchFolder` that is not at the top level is not
inert.  Under the default configuration, Folder "Act One" containing a
`ResearchFolder` "Research" yields the content file `act-one/research.md` and
an include entry for it in `act-one/index.codex.yaml`. -/
theorem C9_counterexample_nested_research_folder :
    [str "act-one", str "research.md"] ∈
      writtenPaths (writeProjectNested defaultCfg [] projResearchNested)
    ∧ indexChildrenAt (writeProjectNested defaultCfg [] projResearchNested)
        [str "act-one", str "index.codex.yaml"] =
        some [IChild.includePtr (str "./research.md")] :=
  ⟨by decide, rfl⟩

/-! ## C3 — index ownership by depth, counterexample part -/

/-- C3 counterexample: with `index_depth = 0` a container reached below a
top-level content item is inlined into no index at all.  In the project with
top-level Text "Chapter 1" owning Folder "Notes", the folder is a container
reached at traversal depth 0 ≥ 0, owns no index (correct), but its id appears
in no written index document either — the master index only records
`./chapter-1.md`. -/
theorem C3_counterexample_orphan_container :
    isContainer cfgDepth0 notesFolder = true
    ∧ writtenPaths (writeProjectNested cfgDepth0 [] projContentChild) =
        [[str "chapter-1.md"], [str "index.codex.yaml"]]
    ∧ (writeProjectNested cfgDepth0 [] projContentChild).dirs = [[], [str "notes"]]
    ∧ str "u-notes" ∉ allInlineIds (writeProjectNested cfgDepth0 [] projContentChild).files
    ∧ indexChildrenAt (writeProjectNested cfgDepth0 [] projContentChild) [str "index.codex.yaml"] =
        some [IChild.includePtr (str "./chapter-1.md")] :=
  ⟨by decide, by decide, by decide, by decide, rfl⟩

/-! ## C5 — slugify alphabet, counterexample part -/

/-- C5 counterexample: `slugify` applied to the one-character title `"é"`
returns `"é"` — Python's `\w` keeps the Latin-1 letter and `lower` fixes it —
so the result contains a character outside `[a-z0-9-]`. -/
theorem C5_counterexample_latin1_letter :
    slugify (str "é") = str "é" ∧ (str "é").all isSlugChar = false := by
  exact ⟨by decide, by decide⟩

/-! ## Character-level lemmas for the slug generator -/

theorem toNat_ofNat_valid (n : Nat) (h : n < 55296) : (Char.ofNat n).toNat = n := by
  rw [Char.ofNat, dif_pos (Or.inl h)]
  rfl

theorem char_of_toNat_eq {a b : Char} (h : a.toNat = b.toNat) : a = b := by
  rw [← Char.ofNat_toNat a, ← Char.ofNat_toNat b, h]

theorem pyLower_toNat (c : Char) :
    (pyLower c).toNat =
      if (65 ≤ c.toNat ∧ c.toNat ≤ 90) ∨ (192 ≤ c.toNat ∧ c.toNat ≤ 222 ∧ c.toNat ≠ 215)
      then c.toNat + 32 else c.toNat := by
  by_cases h : (65 ≤ c.toNat ∧ c.toNat ≤ 90) ∨ (192 ≤ c.toNat ∧ c.toNat ≤ 222 ∧ c.toNat ≠ 215)
  · simp only [pyLower, if_pos h]
    exact toNat_ofNat_valid _ (by omega)
  · simp only [pyLower, if_neg h]

theorem pyLower_fixed_of_not (c : Char)
    (h : ¬((65 ≤ c.toNat ∧ c.toNat ≤ 90) ∨ (192 ≤ c.toNat ∧ c.toNat ≤ 222 ∧ c.toNat ≠ 215))) :
    pyLower c = c := by
  simp only [pyLower, if_neg h]

theorem pyLower_idem (c : Char) : pyLower (pyLower c) = pyLower c := by
  have h1 := pyLower_toNat c
  by_cases h : (65 ≤ c.toNat ∧ c.toNat ≤ 90) ∨ (192 ≤ c.toNat ∧ c.toNat ≤ 222 ∧ c.toNat ≠ 215)
  · rw [if_pos h] at h1
    exact pyLower_fixed_of_not (pyLower c) (by rw [h1]; omega)
  · rw [pyLower_fixed_of_not c h, pyLower_fixed_of_not c h]

theorem map_fixed {f : Char → Char} : ∀ (l : Str), (∀ c ∈ l, f c = c) → l.map f = l := by
  intro l
  induction l with
  | nil => intro _; rfl
  | cons d ds ih =>
    intro h
    simp only [List.map_cons]
    rw [h d (List.mem_cons_self _ _), ih (fun c hc => h c (List.mem_cons_of_mem _ hc))]

/-! ## Lemmas about run replacement -/

theorem mem_subRunsGo (p : Char → Bool) (r : Char) :
    ∀ (l : Str) (b : Bool) (c : Char), c ∈ subRunsGo p r b l → c = r ∨ (c ∈ l ∧ p c = false) := by
  intro l
  induction l with
  | nil => intro b c h; simp [subRunsGo] at h
  | cons d ds ih =>
    intro b c h
    by_cases hd : p d
    · cases b with
      | true =>
        simp only [subRunsGo, if_pos hd, if_true] at h
        rcases ih true c h with h1 | ⟨h2, h3⟩
        · exact Or.inl h1
        · exact Or.inr ⟨List.mem_cons_of_mem _ h2, h3⟩
      | false =>
        simp only [subRunsGo, if_pos hd, if_false] at h
        rcases List.mem_cons.mp h with rfl | hm
        · exact Or.inl rfl
        · rcases ih true c hm with h1 | ⟨h2, h3⟩
          · exact Or.inl h1
          · exact Or.inr ⟨List.mem_cons_of_mem _ h2, h3⟩
    · simp only [subRunsGo, if_neg hd] at h
      rcases List.mem_cons.mp h with rfl | hm
      · exact Or.inr ⟨List.mem_cons_self _ _, by simpa using hd⟩
      · rcases ih false c hm with h1 | ⟨h2, h3⟩
        · exact Or.inl h1
        · exact Or.inr ⟨List.mem_cons_of_mem _ h2, h3⟩

theorem subRunsGo_true_of_all (p : Char → Bool) (r : Char) :
    ∀ (l : Str), (∀ c ∈ l, p c = true) → subRunsGo p r true l = [] := by
  intro l
  induction l with
  | nil => intro _; rfl
  | cons d ds ih =>
    intro h
    have hd : p d = true := h d (List.mem_cons_self _ _)
    simp only [subRunsGo, if_pos hd, if_true]
    exact ih (fun c hc => h c (List.mem_cons_of_mem _ hc))

theorem subRuns_of_all (p : Char → Bool) (r : Char) (l : Str)
    (h : ∀ c ∈ l, p c = true) (hne : l ≠ []) : subRuns p r l = [r] := by
  cases l with
  | nil => exact absurd rfl hne
  | cons d ds =>
    have hd : p d = true := h d (List.mem_cons_self _ _)
    simp only [subRuns, subRunsGo, if_pos hd, if_neg Bool.false_ne_true]
    rw [subRunsGo_true_of_all p r ds (fun c hc => h c (List.mem_cons_of_mem _ hc))]

theorem subRunsGo_of_none (p : Char → Bool) (r : Char) :
    ∀ (l : Str) (b : Bool), (∀ c ∈ l, p c = false) → subRunsGo p r b l = l := by
  intro l
  induction l with
  | nil => intro _ _; rfl
  | cons d ds ih =>
    intro b h
    have hd : p d = false := h d (List.mem_cons_self _ _)
    simp only [subRunsGo, hd, Bool.false_eq_true, if_false]
    rw [ih false (fun c hc => h c (List.mem_cons_of_mem _ hc))]

theorem subRuns_of_none (p : Char → Bool) (r : Char) (l : Str)
    (h : ∀ c ∈ l, p c = false) : subRuns p r l = l :=
  subRunsGo_of_none p r l false h

theorem head_subRunsGo_true (p : Char → Bool) (r : Char) :
    ∀ (l : Str) (c : Char), (subRunsGo p r true l).head? = some c → p c = false := by
  intro l
  induction l with
  | nil => intro c h; simp [subRunsGo] at h
  | cons d ds ih =>
    intro c h
    by_cases hd : p d
    · simp only [subRunsGo, if_pos hd, if_true] at h
      exact ih c h
    · simp only [subRunsGo, if_neg hd, List.head?_cons, Option.some.injEq] at h
      subst h
      simpa using hd

theorem chain'_subRunsGo (p : Char → Bool) (r : Char) :
    ∀ (l : Str) (b : Bool),
      List.Chain' (fun a c => ¬(p a = true ∧ p c = true)) (subRunsGo p r b l) := by
  intro l
  induction l with
  | nil => intro b; simp [subRunsGo]
  | cons d ds ih =>
    intro b
    by_cases hd : p d
    · cases b with
      | true =>
        simpa only [subRunsGo, if_pos hd, if_true] using ih true
      | false =>
        simp only [subRunsGo, if_pos hd, if_neg Bool.false_ne_true]
        rw [List.chain'_cons']
        refine ⟨?_, ih true⟩
        intro y hy hcontra
        have : p y = false := head_subRunsGo_true p r ds y (Option.mem_def.mp hy)
        rw [this] at hcontra
        exact absurd hcontra.2 (by simp)
    · simp only [subRunsGo, if_neg hd]
      rw [List.chain'_cons']
      refine ⟨?_, ih false⟩
      intro y _ hcontra
      exact absurd hcontra.1 (by simpa using hd)

theorem subRuns_eq_self (p : Char → Bool) (r : Char) :
    ∀ (l : Str), (∀ c ∈ l, p c = true → c = r) →
      List.Chain' (fun a c => ¬(p a = true ∧ p c = true)) l →
      subRuns p r l = l := by
  intro l
  induction l with
  | nil => intro _ _; rfl
  | cons d ds ih =>
    intro hall hch
    by_cases hd : p d
    · have hdr : d = r := hall d (List.mem_cons_self _ _) hd
      simp only [subRuns, subRunsGo, if_pos hd, if_neg Bool.false_ne_true]
      rw [hdr]
      congr 1
      have hch2 := (List.chain'_cons'.mp hch).2
      have hall2 : ∀ c ∈ ds, p c = true → c = r :=
        fun c hc hpc => hall c (List.mem_cons_of_mem _ hc) hpc
      cases ds with
      | nil => rfl
      | cons e es =>
        have hpe : p e = false := by
          have hne := (List.chain'_cons'.mp hch).1 e (by simp)
          by_contra hpe'
          exact hne ⟨hd, by simpa using hpe'⟩
        have h1 : subRunsGo p r true (e :: es) = e :: subRunsGo p r false es := by
          simp only [subRunsGo, hpe, Bool.false_eq_true, if_false]
        rw [h1]
        have h2 := ih hall2 hch2
        simp only [subRuns, subRunsGo, hpe, Bool.false_eq_true, if_false] at h2
        rw [h2]
    · simp only [subRuns, subRunsGo, if_neg hd]
      congr 1
      have h2 := ih (fun c hc hpc => hall c (List.mem_cons_of_mem _ hc) hpc)
        (List.Chain'.tail hch)
      simpa only [subRuns] using h2

/-! ## Lemmas about hyphen stripping -/

theorem head?_dropWhile_false (p : Char → Bool) :
    ∀ (l : Str) (c : Char), (l.dropWhile p).head? = some c → p c = false := by
  intro l
  induction l with
  | nil => intro c h; simp at h
  | cons d ds ih =>
    intro c h
    rw [List.dropWhile_cons] at h
    by_cases hd : p d
    · rw [if_pos hd] at h
      exact ih c h
    · rw [if_neg hd] at h
      simp only [List.head?_cons, Option.some.injEq] at h
      subst h
      simpa using hd

theorem head?_of_front {l₁ l₂ : Str} (h : l₁ <+: l₂) (c : Char) (hc : l₁.head? = some c) :
    l₂.head? = some c := by
  obtain ⟨t, rfl⟩ := h
  cases l₁ with
  | nil => simp at hc
  | cons a as => simpa using hc

theorem mem_stripHyphens (l : Str) (c : Char) (h : c ∈ stripHyphens l) : c ∈ l := by
  unfold stripHyphens at h
  have h1 := (List.rdropWhile_prefix _ _).sublist.subset h
  exact (List.dropWhile_suffix _).sublist.subset h1

theorem stripHyphens_within (l : Str) : stripHyphens l <:+: l := by
  unfold stripHyphens
  exact ((List.rdropWhile_prefix _ _).isInfix).trans (List.dropWhile_suffix _).isInfix

theorem stripHyphens_head (l : Str) (c : Char) (h : (stripHyphens l).head? = some c) :
    hyph c = false := by
  unfold stripHyphens at h
  exact head?_dropWhile_false hyph l c
    (head?_of_front (List.rdropWhile_prefix _ _) c h)

theorem stripHyphens_last (l : Str) (h : stripHyphens l ≠ []) :
    hyph ((stripHyphens l).getLast h) = false := by
  have := List.rdropWhile_last_not (p := hyph) (l := l.dropWhile hyph) h
  simpa using this

theorem stripHyphens_eq_self (l : Str)
    (hh : ∀ c, l.head? = some c → hyph c = false)
    (hl : ∀ h : l ≠ [], hyph (l.getLast h) = false) :
    stripHyphens l = l := by
  unfold stripHyphens
  have h1 : l.dropWhile hyph = l := by
    cases l with
    | nil => rfl
    | cons a as =>
      rw [List.dropWhile_cons, hh a rfl]
      simp
  rw [h1, List.rdropWhile_eq_self_iff]
  intro hne
  simp [hl hne]

/-! ## Structure of `slugifyCore` output -/

theorem slugifyCore_chars (t : Str) :
    ∀ c ∈ slugifyCore t, c = '-' ∨
      ((∃ x, x ∈ t ∧ c = pyLower x) ∧ keepChar c = true ∧ spaceUnd c = false ∧
        hyph c = false) := by
  intro c hc
  unfold slugifyCore at hc
  have hc4 := mem_stripHyphens _ _ hc
  rcases mem_subRunsGo hyph '-' _ false c hc4 with rfl | ⟨hc3, hhy⟩
  · exact Or.inl rfl
  rcases mem_subRunsGo spaceUnd '-' _ false c hc3 with rfl | ⟨hc2, hsp⟩
  · exact Or.inl rfl
  rcases List.mem_filter.mp hc2 with ⟨hc1, hk⟩
  rcases List.mem_map.mp hc1 with ⟨x, hx, rfl⟩
  exact Or.inr ⟨⟨x, hx, rfl⟩, hk, hsp, hhy⟩

theorem slugifyCore_chain (t : Str) :
    List.Chain' (fun a c => ¬(hyph a = true ∧ hyph c = true)) (slugifyCore t) := by
  have h := chain'_subRunsGo hyph '-'
    (subRuns spaceUnd '-' ((t.map pyLower).filter keepChar)) false
  exact h.infix (stripHyphens_within _)

theorem slugifyCore_head (t : Str) (c : Char) (h : (slugifyCore t).head? = some c) :
    hyph c = false :=
  stripHyphens_head _ c h

theorem slugifyCore_last (t : Str) (h : slugifyCore t ≠ []) :
    hyph ((slugifyCore t).getLast h) = false :=
  stripHyphens_last _ h

theorem slugifyCore_idem (t : Str) : slugifyCore (slugifyCore t) = slugifyCore t := by
  have hmem := slugifyCore_chars t
  have h1 : (slugifyCore t).map pyLower = slugifyCore t := by
    apply map_fixed
    intro c hc
    rcases hmem c hc with rfl | ⟨⟨x, _, rfl⟩, _, _, _⟩
    · decide
    · exact pyLower_idem x
  have h2 : (slugifyCore t).filter keepChar = slugifyCore t := by
    rw [List.filter_eq_self]
    intro c hc
    rcases hmem c hc with rfl | ⟨_, hk, _, _⟩
    · decide
    · exact hk
  have h3 : subRuns spaceUnd '-' (slugifyCore t) = slugifyCore t := by
    apply subRuns_of_none
    intro c hc
    rcases hmem c hc with rfl | ⟨_, _, hsp, _⟩
    · decide
    · exact hsp
  have h4 : subRuns hyph '-' (slugifyCore t) = slugifyCore t := by
    apply subRuns_eq_self
    · intro c _ hpc
      have : c = '-' := by simpa [hyph] using hpc
      exact this
    · exact slugifyCore_chain t
  have h5 : stripHyphens (slugifyCore t) = slugifyCore t :=
    stripHyphens_eq_self _ (slugifyCore_head t) (slugifyCore_last t)
  have e : ∀ u, slugifyCore u =
      stripHyphens (subRuns hyph '-' (subRuns spaceUnd '-' ((u.map pyLower).filter keepChar))) :=
    fun u => rfl
  rw [e (slugifyCore t), h1, h2, h3, h4, h5]

theorem char_eq_iff (c d : Char) : c = d ↔ c.toNat = d.toNat :=
  ⟨fun h => h ▸ rfl, char_of_toNat_eq⟩

theorem pyIsSpace_iff (c : Char) : pyIsSpace c = true ↔
    (c.toNat = 32 ∨ (9 ≤ c.toNat ∧ c.toNat ≤ 13) ∨ (28 ≤ c.toNat ∧ c.toNat ≤ 31) ∨
     c.toNat = 133 ∨ c.toNat = 160) := by
  simp only [pyIsSpace, Bool.or_eq_true, Bool.and_eq_true, decide_eq_true_eq, beq_iff_eq]
  omega

theorem pyIsWordChar_iff (c : Char) : pyIsWordChar c = true ↔
    ((97 ≤ c.toNat ∧ c.toNat ≤ 122) ∨ (65 ≤ c.toNat ∧ c.toNat ≤ 90) ∨
     (48 ≤ c.toNat ∧ c.toNat ≤ 57) ∨ c.toNat = 95 ∨ c.toNat = 170 ∨ c.toNat = 178 ∨
     c.toNat = 179 ∨ c.toNat = 181 ∨ c.toNat = 185 ∨ c.toNat = 186 ∨
     (188 ≤ c.toNat ∧ c.toNat ≤ 190) ∨
     (192 ≤ c.toNat ∧ c.toNat ≤ 255 ∧ c.toNat ≠ 215 ∧ c.toNat ≠ 247) ∨
     256 ≤ c.toNat) := by
  simp only [pyIsWordChar, Bool.or_eq_true, Bool.and_eq_true, decide_eq_true_eq, beq_iff_eq,
    bne_iff_ne, ne_eq]
  omega

theorem spaceUnd_iff (c : Char) : spaceUnd c = true ↔
    (c.toNat = 32 ∨ (9 ≤ c.toNat ∧ c.toNat ≤ 13) ∨ (28 ≤ c.toNat ∧ c.toNat ≤ 31) ∨
     c.toNat = 133 ∨ c.toNat = 160 ∨ c.toNat = 95) := by
  simp only [spaceUnd, Bool.or_eq_true, pyIsSpace_iff, decide_eq_true_eq, char_eq_iff,
    show ('_').toNat = 95 from rfl]
  omega

theorem hyph_iff (c : Char) : hyph c = true ↔ c.toNat = 45 := by
  simp only [hyph, decide_eq_true_eq, char_eq_iff, show ('-').toNat = 45 from rfl]

theorem keepChar_iff (c : Char) : keepChar c = true ↔
    (pyIsWordChar c = true ∨ pyIsSpace c = true ∨ c.toNat = 45) := by
  simp only [keepChar, Bool.or_eq_true, decide_eq_true_eq, char_eq_iff,
    show ('-').toNat = 45 from rfl]
  tauto

theorem isSlugChar_iff (c : Char) : isSlugChar c = true ↔
    ((97 ≤ c.toNat ∧ c.toNat ≤ 122) ∨ (48 ≤ c.toNat ∧ c.toNat ≤ 57) ∨ c.toNat = 45) := by
  simp only [isSlugChar, Bool.or_eq_true, Bool.and_eq_true, decide_eq_true_eq, char_eq_iff,
    show ('-').toNat = 45 from rfl]
  omega

theorem isAsciiAlnum_iff (c : Char) : isAsciiAlnum c = true ↔
    ((97 ≤ c.toNat ∧ c.toNat ≤ 122) ∨ (65 ≤ c.toNat ∧ c.toNat ≤ 90) ∨
     (48 ≤ c.toNat ∧ c.toNat ≤ 57)) := by
  simp only [isAsciiAlnum, Bool.or_eq_true, Bool.and_eq_true, decide_eq_true_eq]
  omega

theorem slugChar_of_ascii (x : Char) (hx : x.toNat < 128)
    (hk : keepChar (pyLower x) = true) (hsp : spaceUnd (pyLower x) = false)
    (hh : hyph (pyLower x) = false) : isSlugChar (pyLower x) = true := by
  have ht := pyLower_toNat x
  have hsp' : ¬(spaceUnd (pyLower x) = true) := by simp [hsp]
  have hh' : ¬(hyph (pyLower x) = true) := by simp [hh]
  rw [spaceUnd_iff] at hsp'
  rw [hyph_iff] at hh'
  rw [keepChar_iff] at hk
  rw [isSlugChar_iff]
  rcases hk with hw | hs | hdash
  · rw [pyIsWordChar_iff] at hw
    by_cases h2 : (65 ≤ x.toNat ∧ x.toNat ≤ 90) ∨ (192 ≤ x.toNat ∧ x.toNat ≤ 222 ∧ x.toNat ≠ 215)
    · rw [if_pos h2] at ht
      omega
    · rw [if_neg h2] at ht
      omega
  · rw [pyIsSpace_iff] at hs
    omega
  · omega

theorem slugify_ne_nil (t : Str) : slugify t ≠ [] := by
  by_cases h : slugifyCore t = []
  · simp [slugify, h, str]
  · simp [slugify, h]

/-- The non-alphanumeric case: every character survives `lower` unchanged, is
kept only if it is whitespace, `_` or `-`, and the run replacements then
collapse the whole string to hyphens, which are stripped. -/
theorem slugifyCore_nonalnum (t : Str) (h : ∀ c ∈ t, c.toNat < 128)
    (ha : ∀ c ∈ t, isAsciiAlnum c = false) : slugifyCore t = [] := by
  have h1 : t.map pyLower = t := by
    apply map_fixed
    intro c hc
    apply pyLower_fixed_of_not
    have hac := h c hc
    have haa : ¬(isAsciiAlnum c = true) := by simp [ha c hc]
    rw [isAsciiAlnum_iff] at haa
    omega
  have e : slugifyCore t =
      stripHyphens (subRuns hyph '-' (subRuns spaceUnd '-' ((t.map pyLower).filter keepChar))) :=
    rfl
  rw [e, h1]
  have hs2 : ∀ c ∈ t.filter keepChar, spaceUnd c = true ∨ c = '-' := by
    intro c hc
    rcases List.mem_filter.mp hc with ⟨hct, hk⟩
    have hac := h c hct
    have haa := ha c hct
    by_cases hdash : c = '-'
    · exact Or.inr hdash
    left
    rw [keepChar_iff] at hk
    have haa' : ¬(isAsciiAlnum c = true) := by simp [haa]
    rw [isAsciiAlnum_iff] at haa'
    have h45 : c.toNat ≠ 45 := fun hn => hdash (char_of_toNat_eq hn)
    rw [spaceUnd_iff]
    rcases hk with hw | hs | hd
    · rw [pyIsWordChar_iff] at hw
      omega
    · rw [pyIsSpace_iff] at hs
      omega
    · exact absurd hd h45
  have hs3 : ∀ c ∈ subRuns spaceUnd '-' (t.filter keepChar), hyph c = true := by
    intro c hc
    rcases mem_subRunsGo spaceUnd '-' _ false c hc with rfl | ⟨hm, hsp⟩
    · decide
    · rcases hs2 c hm with h' | h'
      · rw [h'] at hsp
        cases hsp
      · simp [hyph, h']
  by_cases h3e : subRuns spaceUnd '-' (t.filter keepChar) = []
  · rw [h3e]
    decide
  · rw [subRuns_of_all hyph '-' _ hs3 h3e]
    decide

/-! ## C5 — slugify on ASCII input (amended claim) -/

/-- C5 (amended): for every input whose characters are ASCII, `slugify`
returns a non-empty string over the alphabet `[a-z0-9-]`, and on an input with
no ASCII alphanumeric character (in particular the empty string, or
punctuation only) it returns exactly `"untitled"`.  (The original claim over
all Unicode strings fails: see the counterexample `"é"`.) -/
theorem C5_slugify_ascii (t : Str) (h : ∀ c ∈ t, c.toNat < 128) :
    (slugify t ≠ [] ∧ ∀ c ∈ slugify t, isSlugChar c = true)
    ∧ ((∀ c ∈ t, isAsciiAlnum c = false) → slugify t = str "untitled") := by
  constructor
  · refine ⟨slugify_ne_nil t, ?_⟩
    intro c hc
    by_cases hcore : slugifyCore t = []
    · rw [slugify, if_pos hcore] at hc
      revert hc
      revert c
      decide
    · rw [slugify, if_neg hcore] at hc
      rcases slugifyCore_chars t c hc with rfl | ⟨⟨x, hx, rfl⟩, hk, hsp, hhy⟩
      · decide
      · exact slugChar_of_ascii x (h x hx) hk hsp hhy
  · intro ha
    rw [slugify, if_pos (slugifyCore_nonalnum t h ha)]

/-- Witness for `C5_slugify_ascii` at the concrete title `"Hello, World!"`. -/
theorem C5_slugify_ascii_witness :
    ((slugify (str "Hello, World!") ≠ [] ∧
        ∀ c ∈ slugify (str "Hello, World!"), isSlugChar c = true)
      ∧ ((∀ c ∈ str "Hello, World!", isAsciiAlnum c = false) →
          slugify (str "Hello, World!") = str "untitled")) :=
  C5_slugify_ascii (str "Hello, World!") (by decide)

/-! ## C10 — idempotence of slugify -/

/-- C10: `slugify` is idempotent — `slugify (slugify t) = slugify t` for every
title, so every slug already used as a file or directory name maps to
itself. -/
theorem slugify_eq (t : Str) :
    slugify t = if slugifyCore t = [] then str "untitled" else slugifyCore t := rfl

theorem C10_slugify_idempotent (t : Str) : slugify (slugify t) = slugify t := by
  by_cases h : slugifyCore t = []
  · rw [slugify_eq t, if_pos h]
    decide
  · rw [slugify_eq t, if_neg h, slugify_eq (slugifyCore t), slugifyCore_idem t, if_neg h]

/-! ## C9 — inert node kinds (amended claim) -/

theorem writeNestedItem_skip (cfg : Config) (now : Str) (item : BItem)
    (h : item.itemType = str "Trash" ∨ item.itemType = str "TrashFolder" ∨
         item.itemType = str "Root")
    (dir : FPath) (depth : Nat) (st : WState) :
    writeNestedItem cfg now item dir depth st = st := by
  obtain ⟨u, ty, ti, la, sta, kw, sy, ic, cc, ch⟩ := item
  simp only [writeNestedItem]
  rw [if_pos h]

theorem buildChildItem_skip (cfg : Config) (item : BItem)
    (h : item.itemType = str "Trash" ∨ item.itemType = str "TrashFolder" ∨
         item.itemType = str "Root")
    (parentDir : FPath) (depth : Nat) :
    buildChildItem cfg item parentDir depth = [] := by
  obtain ⟨u, ty, ti, la, sta, kw, sy, ic, cc, ch⟩ := item
  simp only [buildChildItem]
  rw [if_pos h]

theorem writeNestedList_append (cfg : Config) (now : Str) :
    ∀ (l1 l2 : List BItem) (dir : FPath) (depth : Nat) (st : WState),
      writeNestedList cfg now (l1 ++ l2) dir depth st =
        writeNestedList cfg now l2 dir depth (writeNestedList cfg now l1 dir depth st) := by
  intro l1
  induction l1 with
  | nil => intro l2 dir depth st; rfl
  | cons i rest ih =>
    intro l2 dir depth st
    simp only [List.cons_append, writeNestedList]
    exact ih l2 dir depth (writeNestedItem cfg now i dir depth st)

theorem buildChildList_append (cfg : Config) :
    ∀ (l1 l2 : List BItem) (parentDir : FPath) (depth : Nat),
      buildChildList cfg (l1 ++ l2) parentDir depth =
        buildChildList cfg l1 parentDir depth ++ buildChildList cfg l2 parentDir depth := by
  intro l1
  induction l1 with
  | nil => intro l2 parentDir depth; rfl
  | cons i rest ih =>
    intro l2 parentDir depth
    simp only [List.cons_append, buildChildList, List.append_eq]
    rw [ih l2 parentDir depth, List.append_assoc]

theorem masterChildren_append (cfg : Config) :
    ∀ (l1 l2 : List BItem),
      masterChildren cfg (l1 ++ l2) = masterChildren cfg l1 ++ masterChildren cfg l2 := by
  intro l1
  induction l1 with
  | nil => intro l2; rfl
  | cons i rest ih =>
    intro l2
    simp only [List.cons_append, masterChildren, List.append_eq]
    rw [ih l2, ← List.append_assoc]

/-- C9 (amended): nodes of kind `Trash`, `TrashFolder` or `Root` are inert at
every position of the nested-mode traversal — they contribute no state change
(no file, no directory, no counter) and no index entry, in container
sub-indexes and in the master index alike.  `ResearchFolder` (together with
the other three kinds) is skipped by the top-level manuscript filter only; a
`ResearchFolder` nested deeper is classified like any other node (see the
counterexample). -/
theorem C9_inert_kinds (cfg : Config) (now : Str) (item : BItem)
    (h : item.itemType = str "Trash" ∨ item.itemType = str "TrashFolder" ∨
         item.itemType = str "Root") :
    (∀ (pre post : List BItem) (dir : FPath) (depth : Nat) (st : WState),
      writeNestedList cfg now (pre ++ item :: post) dir depth st =
        writeNestedList cfg now (pre ++ post) dir depth st)
    ∧ (∀ (pre post : List BItem) (parentDir : FPath) (depth : Nat),
      buildChildList cfg (pre ++ item :: post) parentDir depth =
        buildChildList cfg (pre ++ post) parentDir depth)
    ∧ (∀ (pre post : List BItem),
      masterChildren cfg (pre ++ item :: post) = masterChildren cfg (pre ++ post))
    ∧ (∀ it : BItem,
      it.itemType = str "Trash" ∨ it.itemType = str "TrashFolder" ∨
        it.itemType = str "ResearchFolder" ∨ it.itemType = str "Root" →
      isManuscript it = false) := by
  refine ⟨?_, ?_, ?_, ?_⟩
  · intro pre post dir depth st
    rw [writeNestedList_append cfg now pre (item :: post),
        writeNestedList_append cfg now pre post]
    simp only [writeNestedList]
    rw [writeNestedItem_skip cfg now item h]
  · intro pre post parentDir depth
    rw [buildChildList_append cfg pre (item :: post), buildChildList_append cfg pre post]
    simp only [buildChildList]
    rw [buildChildItem_skip cfg item h]
    rfl
  · intro pre post
    rw [masterChildren_append cfg pre (item :: post), masterChildren_append cfg pre post]
    simp only [masterChildren]
    rcases h with h | h | h <;> rw [if_pos (by rw [h]; tauto)] <;> simp
  · intro it hit
    simp only [isManuscript]
    rw [if_pos hit]

/-- Witness for `C9_inert_kinds`: dropping a concrete `Trash` item from a
nested write changes nothing. -/
theorem C9_inert_kinds_witness :
    writeNestedList defaultCfg [] ([] ++ trashSample :: []) [] 0 {} =
      writeNestedList defaultCfg [] ([] ++ []) [] 0 {} :=
  (C9_inert_kinds defaultCfg [] trashSample (Or.inl rfl)).1 [] [] [] 0 {}

/-! ## C6 — the type classifier -/

theorem labelChain_eq (ll : Str) :
    (if strContains ll (str "chapter") then some (str "chapter")
     else if strContains ll (str "scene") then some (str "scene")
     else if strContains ll (str "character") then some (str "character")
     else if strContains ll (str "location") then some (str "location")
     else if strContains ll (str "act") then some (str "act")
     else if strContains ll (str "part") then some (str "part")
     else if strContains ll (str "book") then some (str "book")
     else none) = labelOrder.find? (fun k => strContains ll k) := by
  simp only [labelOrder, List.find?]
  by_cases h1 : strContains ll (str "chapter") <;> simp [h1]
  by_cases h2 : strContains ll (str "scene") <;> simp [h2]
  by_cases h3 : strContains ll (str "character") <;> simp [h3]
  by_cases h4 : strContains ll (str "location") <;> simp [h4]
  by_cases h5 : strContains ll (str "act") <;> simp [h5]
  by_cases h6 : strContains ll (str "part") <;> simp [h6]
  by_cases h7 : strContains ll (str "book") <;> simp [h7]

theorem titleChain_eq (tl dflt : Str) :
    (if strStarts tl (str "chapter") then str "chapter"
     else if strStarts tl (str "scene") then str "scene"
     else if strStarts tl (str "act") then str "act"
     else if strStarts tl (str "book") then str "book"
     else if strStarts tl (str "part") then str "part"
     else dflt) =
    (match titleOrder.find? (fun k => strStarts tl k) with
     | some t => t
     | none => dflt) := by
  simp only [titleOrder, List.find?]
  by_cases h1 : strStarts tl (str "chapter") <;> simp [h1]
  by_cases h2 : strStarts tl (str "scene") <;> simp [h2]
  by_cases h3 : strStarts tl (str "act") <;> simp [h3]
  by_cases h4 : strStarts tl (str "book") <;> simp [h4]
  by_cases h5 : strStarts tl (str "part") <;> simp [h5]

theorem mapType_eq_classifySpec (item : BItem) : mapType item = classifySpec item := by
  obtain ⟨u, ty, ti, la, sta, kw, sy, ic, cc, ch⟩ := item
  cases la with
  | none =>
    simp only [mapType, classifySpec]
    dsimp only
    exact titleChain_eq (lowerStr ti)
      (if ty = str "Folder" ∨ ty = str "DraftFolder" then str "folder"
       else str "document")
  | some lbl =>
    simp only [mapType, classifySpec]
    dsimp only
    by_cases h0 : lbl ≠ []
    · rw [if_pos h0, labelChain_eq]
      cases labelOrder.find? (fun k => strContains (lowerStr lbl) k) with
      | some t => rfl
      | none =>
        exact titleChain_eq (lowerStr ti)
          (if ty = str "Folder" ∨ ty = str "DraftFolder" then str "folder"
           else str "document")
    · rw [if_neg h0]
      have h0' : lbl = [] := by
        by_contra hc
        exact h0 hc
      subst h0'
      have hfold : List.find? (fun k => strContains (lowerStr []) k) labelOrder = none := by
        decide
      rw [hfold]
      dsimp only
      exact titleChain_eq (lowerStr ti)
        (if ty = str "Folder" ∨ ty = str "DraftFolder" then str "folder"
         else str "document")

theorem classifySpec_mem (item : BItem) : classifySpec item ∈ semanticTypes := by
  simp only [classifySpec]
  split
  case h_1 t heq =>
    split at heq
    case h_1 lbl hlbl =>
      have hmem := List.mem_of_find?_eq_some heq
      simp only [labelOrder, semanticTypes, List.mem_cons, List.not_mem_nil, or_false] at hmem ⊢
      tauto
    case h_2 => exact absurd heq (by simp)
  case h_2 heq =>
    split
    case h_1 t2 heq2 =>
      have hmem := List.mem_of_find?_eq_some heq2
      simp only [titleOrder, semanticTypes, List.mem_cons, List.not_mem_nil, or_false] at hmem ⊢
      tauto
    case h_2 heq2 =>
      split <;> simp [semanticTypes]

theorem mapType_mem (item : BItem) : mapType item ∈ semanticTypes := by
  rw [mapType_eq_classifySpec]
  exact classifySpec_mem item

/-- C6: the classifier is a total deterministic function returning one of the
nine semantic types, and it agrees with the spec's ordered first-match-wins
description (`classifySpec`): label substrings in the order chapter, scene,
character, location, act, part, book; then title prefixes chapter, scene, act,
book, part; then Folder/DraftFolder → folder; otherwise document. -/
theorem C6_classifier_first_match (item : BItem) :
    mapType item = classifySpec item ∧ mapType item ∈ semanticTypes :=
  ⟨mapType_eq_classifySpec item, mapType_mem item⟩

/-! ## C7 — the RTF conversion cascade never raises -/

/-- C7: `RTFConverter.convert` always returns a string — whenever the method
dispatch raises, the result is the caught, bracket-annotated error string —
and when both pandoc and striprtf are unavailable the construction-time
validation downgrades every method to `raw`, for which `convert` on a
readable file returns the file's raw text with no exception involved. -/
theorem C7_rtf_convert_never_raises (env : REnv) (m : RMethod) (p : Str)
    (hp : env.pandocAvailable = false) (hs : env.striprtfAvailable = false) :
    (∀ (env' : REnv) (m' : RMethod) (q : Str), ∃ s : Str,
      rtfConvert env' m' q = s ∧
      (env'.file q = FileState.missing → s = []) ∧
      (∀ e, env'.file q ≠ FileState.missing → convertBody env' m' q = Except.error e →
        s = str "[Conversion error: " ++ e ++ str "]"))
    ∧ validateMethod env m = RMethod.raw
    ∧ (∀ c, env.file p = FileState.readable c →
        rtfConvert env (validateMethod env m) p = c) := by
  have hval : validateMethod env m = RMethod.raw := by
    cases m <;> simp [validateMethod, hp, hs]
  refine ⟨?_, hval, ?_⟩
  · intro env' m' q
    cases hf : env'.file q with
    | missing =>
      refine ⟨[], ?_, fun _ => rfl, fun e hne _ => absurd rfl hne⟩
      simp [rtfConvert, hf]
    | unreadable msg =>
      cases hb : convertBody env' m' q with
      | ok s =>
        refine ⟨s, ?_, fun hm => absurd hm (by simp [hf]), ?_⟩
        · simp [rtfConvert, hf, hb]
        · intro e _ he
          simp at he
      | error e =>
        refine ⟨str "[Conversion error: " ++ e ++ str "]", ?_, fun hm => absurd hm (by simp [hf]), ?_⟩
        · simp [rtfConvert, hf, hb]
        · intro e' _ he
          injection he with h
          rw [h]
    | readable c =>
      cases hb : convertBody env' m' q with
      | ok s =>
        refine ⟨s, ?_, fun hm => absurd hm (by simp [hf]), ?_⟩
        · simp [rtfConvert, hf, hb]
        · intro e _ he
          simp at he
      | error e =>
        refine ⟨str "[Conversion error: " ++ e ++ str "]", ?_, fun hm => absurd hm (by simp [hf]), ?_⟩
        · simp [rtfConvert, hf, hb]
        · intro e' _ he
          injection he with h
          rw [h]
  · intro c hc
    rw [hval]
    simp [rtfConvert, convertBody, getRaw, hc]

/-- Witness for `C7_rtf_convert_never_raises` in the concrete environment
with both external methods unavailable. -/
theorem C7_rtf_convert_witness :
    validateMethod sampleREnv RMethod.striprtf = RMethod.raw
    ∧ rtfConvert sampleREnv (validateMethod sampleREnv RMethod.striprtf) (str "f") =
        str "hello" :=
  ⟨(C7_rtf_convert_never_raises sampleREnv RMethod.striprtf (str "f") rfl rfl).2.1,
   (C7_rtf_convert_never_raises sampleREnv RMethod.striprtf (str "f") rfl rfl).2.2
     (str "hello") (by decide)⟩

/-! ## C8 — serialization without PyYAML -/

/-- C8: with PyYAML unavailable, rendering a document in YAML format raises
the configuration `ImportError`, which `_write_document` catches and records
as a per-file error string — the run continues (the call returns a state, no
exception), nothing is written and the counter is untouched — while rendering
in markdown format succeeds with the `k: repr(v)` fallback frontmatter and the
file is written. -/
theorem C8_yaml_unavailable (item : BItem) (dir : FPath) (st : WState) (now : Str) :
    (writeDocument cfgYamlNoLib now item dir st =
      { st with errors := st.errors ++
          [renderPath (dir ++ [slugify item.title ++ str ".codex.yaml"]) ++ str ": " ++
           str "PyYAML is required for YAML output. Install with: pip3 install pyyaml"] })
    ∧ (writeDocument cfgMdNoLib now item dir st =
      { st with
          files := st.files ++ [(dir ++ [slugify item.title ++ str ".md"],
            FContent.markdown
              { front := MDFront.fallback (fallbackFM (buildFrontmatter item)),
                title := item.title, body := item.convertedContent.getD [] })],
          filesWritten := st.filesWritten + 1 }) :=
  ⟨rfl, rfl⟩

/-! ## C3 — file accumulation lemmas -/

theorem buildContent_not_index (cfg : Config) (now : Str) (item : BItem) (c : FContent)
    (h : buildContent cfg now item = Except.ok c) : isIndexWrite c = false := by
  unfold buildContent at h
  split at h
  · cases h
    rfl
  · split at h
    · split at h
      · cases h
        rfl
      · cases h
    · cases h
      rfl

theorem writeDocument_files (cfg : Config) (now : Str) (item : BItem) (dir : FPath)
    (st : WState) (hd : cfg.dryRun = false) :
    (writeDocument cfg now item dir st).files =
      st.files ++ (match buildContent cfg now item with
        | Except.ok content => [(dir ++ [slugify item.title ++ getExtension cfg], content)]
        | Except.error _ => []) := by
  unfold writeDocument
  cases buildContent cfg now item <;> simp [hd]

theorem writeNestedIndex_files (cfg : Config) (item : BItem) (dir : FPath) (depth : Nat)
    (st : WState) (hy : cfg.yamlAvail = true) (hd : cfg.dryRun = false) :
    (writeNestedIndex cfg item dir depth st).files =
      st.files ++ [(dir ++ [str "index.codex.yaml"],
        FContent.indexYaml (nestedIndexDoc cfg item dir depth))] := by
  unfold writeNestedIndex
  simp [hy, hd]

mutual

theorem writeNestedItem_files (cfg : Config) (now : Str) (hy : cfg.yamlAvail = true)
    (hd : cfg.dryRun = false) :
    ∀ (item : BItem) (dir : FPath) (depth : Nat) (st : WState),
      (writeNestedItem cfg now item dir depth st).files =
        st.files ++ nestedWritesItem cfg now item dir depth
  | ⟨u, ty, ti, la, sta, kw, sy, ic, cc, ch⟩, dir, depth, st => by
    simp only [writeNestedItem, nestedWritesItem]
    by_cases hskip : ty = str "Trash" ∨ ty = str "TrashFolder" ∨ ty = str "Root"
    · simp [hskip]
    rw [if_neg hskip, if_neg hskip]
    by_cases hcont : isContainer cfg ⟨u, ty, ti, la, sta, kw, sy, ic, cc, ch⟩
    · rw [if_pos hcont, if_pos hcont]
      by_cases hdep : depth < cfg.indexDepth
      · rw [if_pos hdep, if_pos hdep]
        rw [writeNestedList_files cfg now hy hd ch _ _ _]
        simp only [hd, Bool.false_eq_true, if_false]
        rw [writeNestedIndex_files cfg _ _ _ _ hy hd]
        simp [List.append_assoc]
      · rw [if_neg hdep, if_neg hdep]
        rw [writeNestedList_files cfg now hy hd ch _ _ _]
        simp only [hd, Bool.false_eq_true, if_false]
        simp [List.append_assoc]
    · rw [if_neg hcont, if_neg hcont]
      by_cases hct : isContent cfg ⟨u, ty, ti, la, sta, kw, sy, ic, cc, ch⟩
      · rw [if_pos hct, if_pos hct]
        rw [writeNestedList_files cfg now hy hd ch _ _ _]
        rw [writeDocument_files cfg now _ _ _ hd]
        simp [List.append_assoc]
      · rw [if_neg hct, if_neg hct]
        simp

theorem writeNestedList_files (cfg : Config) (now : Str) (hy : cfg.yamlAvail = true)
    (hd : cfg.dryRun = false) :
    ∀ (items : List BItem) (dir : FPath) (depth : Nat) (st : WState),
      (writeNestedList cfg now items dir depth st).files =
        st.files ++ nestedWritesList cfg now items dir depth
  | [], _, _, st => by simp [writeNestedList, nestedWritesList]
  | i :: rest, dir, depth, st => by
    simp only [writeNestedList, nestedWritesList]
    rw [writeNestedList_files cfg now hy hd rest dir depth _]
    rw [writeNestedItem_files cfg now hy hd i dir depth st]
    rw [List.append_assoc]

end

theorem writeProjectNested_files (cfg : Config) (now : Str) (proj : SProject)
    (hy : cfg.yamlAvail = true) (hd : cfg.dryRun = false) :
    (writeProjectNested cfg now proj).files =
      nestedWritesList cfg now (manuscriptFilter proj.binderItems) [] 0
      ++ [([str "index.codex.yaml"],
           FContent.indexYaml (masterIndexDoc cfg proj (manuscriptFilter proj.binderItems)))] := by
  unfold writeProjectNested writeMasterIndex
  simp only [hd, Bool.false_eq_true, if_false, hy, not_true, ite_false]
  rw [writeNestedList_files cfg now hy hd _ _ _ _]
  simp

mutual

theorem nestedWritesItem_index_paths (cfg : Config) (now : Str) :
    ∀ (item : BItem) (dir : FPath) (depth : Nat) (owner : FPath),
      ((nestedWritesItem cfg now item dir depth).filter (fun f => isIndexWrite f.2)).map
          Prod.fst =
        ((containerInfoItem cfg item dir depth owner).filter
            (fun r => r.2.1 < cfg.indexDepth)).map
          (fun r => r.1 ++ [str "index.codex.yaml"])
  | ⟨u, ty, ti, la, sta, kw, sy, ic, cc, ch⟩, dir, depth, owner => by
    simp only [nestedWritesItem, containerInfoItem]
    by_cases hskip : ty = str "Trash" ∨ ty = str "TrashFolder" ∨ ty = str "Root"
    · simp [hskip]
    rw [if_neg hskip, if_neg hskip]
    by_cases hcont : isContainer cfg ⟨u, ty, ti, la, sta, kw, sy, ic, cc, ch⟩
    · rw [if_pos hcont, if_pos hcont]
      by_cases hdep : depth < cfg.indexDepth
      · rw [if_pos hdep, if_pos hdep]
        have hrec := nestedWritesItem_index_paths_list cfg now ch (dir ++ [slugify ti])
          (depth + 1) (dir ++ [slugify ti])
        have hidx : isIndexWrite (FContent.indexYaml (nestedIndexDoc cfg
            ⟨u, ty, ti, la, sta, kw, sy, ic, cc, ch⟩ (dir ++ [slugify ti]) (depth + 1))) = true :=
          rfl
        simp [List.filter_append, List.filter_cons, hdep, hidx, hrec]
      · rw [if_neg hdep, if_neg hdep]
        have hrec := nestedWritesItem_index_paths_list cfg now ch (dir ++ [slugify ti])
          (depth + 1) owner
        simp [List.filter_cons, hdep, hrec]
    · rw [if_neg hcont, if_neg hcont]
      by_cases hct : isContent cfg ⟨u, ty, ti, la, sta, kw, sy, ic, cc, ch⟩
      · rw [if_pos hct, if_pos hct]
        have hrec := nestedWritesItem_index_paths_list cfg now ch dir depth owner
        cases hb : buildContent cfg now ⟨u, ty, ti, la, sta, kw, sy, ic, cc, ch⟩ with
        | ok c =>
          have hnc := buildContent_not_index cfg now _ c hb
          simp [List.filter_append, List.filter_cons, hnc, hrec]
        | error e => simp [List.filter_append, hrec]
      · rw [if_neg hct, if_neg hct]
        simp

theorem nestedWritesItem_index_paths_list (cfg : Config) (now : Str) :
    ∀ (items : List BItem) (dir : FPath) (depth : Nat) (owner : FPath),
      ((nestedWritesList cfg now items dir depth).filter (fun f => isIndexWrite f.2)).map
          Prod.fst =
        ((containerInfoList cfg items dir depth owner).filter
            (fun r => r.2.1 < cfg.indexDepth)).map
          (fun r => r.1 ++ [str "index.codex.yaml"])
  | [], _, _, _ => by simp [nestedWritesList, containerInfoList]
  | i :: rest, dir, depth, owner => by
    simp only [nestedWritesList, containerInfoList, List.filter_append, List.map_append]
    rw [nestedWritesItem_index_paths cfg now i dir depth owner,
        nestedWritesItem_index_paths_list cfg now rest dir depth owner]

end

theorem indexFilePaths_char (cfg : Config) (now : Str) (proj : SProject)
    (hy : cfg.yamlAvail = true) (hd : cfg.dryRun = false) :
    indexFilePaths (writeProjectNested cfg now proj) =
      ((containerInfoList cfg (manuscriptFilter proj.binderItems) [] 0 []).filter
          (fun r => r.2.1 < cfg.indexDepth)).map
        (fun r => r.1 ++ [str "index.codex.yaml"])
      ++ [[str "index.codex.yaml"]] := by
  unfold indexFilePaths
  rw [writeProjectNested_files cfg now proj hy hd]
  rw [List.filter_append, List.map_append]
  rw [nestedWritesItem_index_paths_list cfg now _ [] 0 []]
  simp [isIndexWrite]

theorem inlineIdsList_append (l1 l2 : List IChild) :
    inlineIdsList (l1 ++ l2) = inlineIdsList l1 ++ inlineIdsList l2 := by
  induction l1 with
  | nil => rfl
  | cons c rest ih =>
    simp only [List.cons_append, inlineIdsList, List.append_eq, ih, List.append_assoc]

theorem inlineIdsList_append_left (l1 l2 : List IChild) (x : Str)
    (h : x ∈ inlineIdsList l1) : x ∈ inlineIdsList (l1 ++ l2) := by
  rw [inlineIdsList_append]
  exact List.mem_append_left _ h

theorem inlineIdsList_append_right (l1 l2 : List IChild) (x : Str)
    (h : x ∈ inlineIdsList l2) : x ∈ inlineIdsList (l1 ++ l2) := by
  rw [inlineIdsList_append]
  exact List.mem_append_right _ h

mutual

theorem inlined_in_owner_item (cfg : Config) (now : Str) :
    ∀ (item : BItem) (dir : FPath) (depth : Nat) (owner pdir : FPath)
      (r : FPath × Nat × Str × FPath),
      r ∈ containerInfoItem cfg item dir depth owner →
      cfg.indexDepth ≤ r.2.1 →
      (r.2.2.2 = owner ∧ r.2.2.1 ∈ inlineIdsList (buildChildItem cfg item pdir depth))
      ∨ (∃ doc : IndexDoc,
          (r.2.2.2 ++ [str "index.codex.yaml"], FContent.indexYaml doc) ∈
            nestedWritesItem cfg now item dir depth ∧
          r.2.2.1 ∈ inlineIdsList doc.children)
  | ⟨u, ty, ti, la, sta, kw, sy, ic, cc, ch⟩, dir, depth, owner, pdir, r => by
    intro hr hdep
    simp only [containerInfoItem] at hr
    simp only [buildChildItem, nestedWritesItem]
    by_cases hskip : ty = str "Trash" ∨ ty = str "TrashFolder" ∨ ty = str "Root"
    · rw [if_pos hskip] at hr
      simp at hr
    rw [if_neg hskip] at hr
    rw [if_neg hskip, if_neg hskip]
    by_cases hcont : isContainer cfg ⟨u, ty, ti, la, sta, kw, sy, ic, cc, ch⟩
    · rw [if_pos hcont] at hr
      rw [if_pos hcont, if_pos hcont]
      rcases List.mem_cons.mp hr with rfl | htail
      · -- the container's own record
        have hnd : ¬(depth < cfg.indexDepth) := by
          simp only at hdep
          omega
        rw [if_neg hnd]
        left
        refine ⟨rfl, ?_⟩
        simp only [inlineIdsList, List.append_nil]
        by_cases hche : ch.isEmpty = true
        · rw [if_pos hche]
          simp [inlineIdsOne]
        · rw [if_neg hche]
          simp [inlineIdsOne]
      · by_cases hdep2 : depth < cfg.indexDepth
        · rw [if_pos hdep2] at htail
          rw [if_pos hdep2, if_pos hdep2]
          rcases inlined_in_owner_list cfg now ch (dir ++ [slugify ti]) (depth + 1)
              (dir ++ [slugify ti]) (dir ++ [slugify ti]) r htail hdep with
            ⟨how, hin⟩ | ⟨doc, hmem, hin⟩
          · right
            refine ⟨nestedIndexDoc cfg ⟨u, ty, ti, la, sta, kw, sy, ic, cc, ch⟩
              (dir ++ [slugify ti]) (depth + 1), ?_, ?_⟩
            · rw [how]
              exact List.mem_append_left _ (List.mem_singleton.mpr rfl)
            · exact hin
          · right
            exact ⟨doc, List.mem_append_right _ hmem, hin⟩
        · rw [if_neg hdep2] at htail
          rw [if_neg hdep2, if_neg hdep2]
          have hch : ch ≠ [] := by
            rintro rfl
            simp [containerInfoList] at htail
          rcases inlined_in_owner_list cfg now ch (dir ++ [slugify ti]) (depth + 1)
              owner (pdir ++ [slugify ti]) r htail hdep with
            ⟨how, hin⟩ | ⟨doc, hmem, hin⟩
          · left
            refine ⟨how, ?_⟩
            rw [if_neg (by simpa using hch)]
            simp only [inlineIdsList, inlineIdsOne, List.append_nil]
            exact List.mem_cons_of_mem _ hin
          · right
            exact ⟨doc, List.mem_append_right _ hmem, hin⟩
    · rw [if_neg hcont] at hr
      rw [if_neg hcont, if_neg hcont]
      by_cases hct : isContent cfg ⟨u, ty, ti, la, sta, kw, sy, ic, cc, ch⟩
      · rw [if_pos hct] at hr
        rw [if_pos hct, if_pos hct]
        rcases inlined_in_owner_list cfg now ch dir depth owner pdir r hr hdep with
          ⟨how, hin⟩ | ⟨doc, hmem, hin⟩
        · left
          refine ⟨how, ?_⟩
          simp only [inlineIdsList, inlineIdsOne, List.nil_append]
          exact hin
        · right
          exact ⟨doc, List.mem_append_right _ hmem, hin⟩
      · rw [if_neg hct] at hr
        simp at hr

theorem inlined_in_owner_list (cfg : Config) (now : Str) :
    ∀ (items : List BItem) (dir : FPath) (depth : Nat) (owner pdir : FPath)
      (r : FPath × Nat × Str × FPath),
      r ∈ containerInfoList cfg items dir depth owner →
      cfg.indexDepth ≤ r.2.1 →
      (r.2.2.2 = owner ∧ r.2.2.1 ∈ inlineIdsList (buildChildList cfg items pdir depth))
      ∨ (∃ doc : IndexDoc,
          (r.2.2.2 ++ [str "index.codex.yaml"], FContent.indexYaml doc) ∈
            nestedWritesList cfg now items dir depth ∧
          r.2.2.1 ∈ inlineIdsList doc.children)
  | [], _, _, _, _, r => by
    intro hr _
    simp [containerInfoList] at hr
  | i :: rest, dir, depth, owner, pdir, r => by
    intro hr hdep
    simp only [containerInfoList] at hr
    simp only [buildChildList, nestedWritesList]
    rcases List.mem_append.mp hr with hhead | htail
    · rcases inlined_in_owner_item cfg now i dir depth owner pdir r hhead hdep with
        ⟨how, hin⟩ | ⟨doc, hmem, hin⟩
      · left
        exact ⟨how, inlineIdsList_append_left _ _ _ hin⟩
      · exact Or.inr ⟨doc, List.mem_append_left _ hmem, hin⟩
    · rcases inlined_in_owner_list cfg now rest dir depth owner pdir r htail hdep with
        ⟨how, hin⟩ | ⟨doc, hmem, hin⟩
      · left
        exact ⟨how, inlineIdsList_append_right _ _ _ hin⟩
      · exact Or.inr ⟨doc, List.mem_append_right _ hmem, hin⟩

end

theorem nestedWrites_no_index (cfg : Config) (now : Str) (h0 : cfg.indexDepth = 0)
    (items : List BItem) (dir : FPath) (depth : Nat) (p : FPath) (d : IndexDoc)
    (hmem : (p, FContent.indexYaml d) ∈ nestedWritesList cfg now items dir depth) : False := by
  have hchar := nestedWritesItem_index_paths_list cfg now items dir depth []
  have hrhs : (containerInfoList cfg items dir depth []).filter
      (fun r => decide (r.2.1 < cfg.indexDepth)) = [] := by
    apply List.filter_eq_nil_iff.mpr
    intro a _
    rw [h0]
    simp
  rw [hrhs] at hchar
  simp only [List.map_nil] at hchar
  have hfil : (nestedWritesList cfg now items dir depth).filter (fun f => isIndexWrite f.2) = [] :=
    List.map_eq_nil_iff.mp hchar
  have hin : (p, FContent.indexYaml d) ∈
      (nestedWritesList cfg now items dir depth).filter (fun f => isIndexWrite f.2) :=
    List.mem_filter.mpr ⟨hmem, rfl⟩
  rw [hfil] at hin
  exact absurd hin (List.not_mem_nil _)

theorem containerInfo_master (cfg : Config) (now : Str) (h0 : cfg.indexDepth = 0) :
    ∀ (items : List BItem) (r : FPath × Nat × Str × FPath),
      r ∈ containerInfoList cfg (items.filter (fun i => isContainer cfg i)) [] 0 [] →
      r.2.2.1 ∈ inlineIdsList (masterChildren cfg items) := by
  intro items
  induction items with
  | nil => intro r hr; simp [containerInfoList] at hr
  | cons i rest ih =>
    intro r hr
    rw [List.filter_cons] at hr
    by_cases hic : isContainer cfg i
    · rw [if_pos hic] at hr
      simp only [containerInfoList] at hr
      simp only [masterChildren]
      rcases List.mem_append.mp hr with hh | ht
      · -- a record of the container i or of its subtree
        obtain ⟨u, ty, ti, la, sta, kw, sy, ic2, cc, ch⟩ := i
        simp only [containerInfoItem] at hh
        by_cases hskip : ty = str "Trash" ∨ ty = str "TrashFolder" ∨ ty = str "Root"
        · rw [if_pos hskip] at hh
          simp at hh
        rw [if_neg hskip] at hh
        rw [if_pos hic] at hh
        have hmc : ¬(isContainer cfg ⟨u, ty, ti, la, sta, kw, sy, ic2, cc, ch⟩ = true ∧
            0 < cfg.indexDepth) := by
          rw [h0]
          simp
        apply inlineIdsList_append_left
        rw [if_neg hskip, if_neg hmc, if_pos hic]
        simp only [inlineIdsList, List.append_nil]
        have h00 : ¬((0:Nat) < cfg.indexDepth) := by rw [h0]; simp
        rw [if_neg h00] at hh
        rcases List.mem_cons.mp hh with rfl | htail
        · by_cases hche : ch.isEmpty = true
          · rw [if_pos hche]
            simp [inlineIdsOne]
          · rw [if_neg hche]
            simp [inlineIdsOne]
        · have hch : ch ≠ [] := by
            rintro rfl
            simp [containerInfoList] at htail
          rcases inlined_in_owner_list cfg now ch ([] ++ [slugify ti]) 1 [] [slugify ti]
              r htail (by rw [h0]; omega) with ⟨how, hin⟩ | ⟨doc, hmem, hin⟩
          · rw [if_neg (by simpa using hch)]
            simp only [inlineIdsOne]
            exact List.mem_cons_of_mem _ hin
          · exact absurd hmem (fun hm => nestedWrites_no_index cfg now h0 ch _ 1 _ doc hm)
      · exact inlineIdsList_append_right _ _ _ (ih r ht)
    · rw [if_neg hic] at hr
      simp only [masterChildren]
      exact inlineIdsList_append_right _ _ _ (ih r hr)

/-! ## C3 — index ownership by depth (amended claim) -/

/-- C3 (amended): in a nested-mode run with PyYAML available and dry-run off,
(a) the index documents written are exactly the root master index plus one
`index.codex.yaml` in the directory of every container reached at traversal
depth `d < N` — so a container owns an index iff `d < N`; (b) with `N = 0`
the master index is the only index document; (c) every container with
`d ≥ N` whose nearest index-owning ancestor is a real container is inlined
into that ancestor's index document; and (d) with `N = 0` every container
reached through top-level *containers* is inlined into the master index.
(The original claim's stronger version of (c)/(d) fails for containers
reached below a top-level content item with `N = 0`: see the
counterexample.) -/
theorem C3_index_ownership (cfg : Config) (now : Str) (proj : SProject)
    (hy : cfg.yamlAvail = true) (hd : cfg.dryRun = false) :
    (indexFilePaths (writeProjectNested cfg now proj) =
      ((containerInfoList cfg (manuscriptFilter proj.binderItems) [] 0 []).filter
          (fun r => r.2.1 < cfg.indexDepth)).map (fun r => r.1 ++ [str "index.codex.yaml"])
      ++ [[str "index.codex.yaml"]])
    ∧ (cfg.indexDepth = 0 →
      indexFilePaths (writeProjectNested cfg now proj) = [[str "index.codex.yaml"]])
    ∧ (∀ r ∈ containerInfoList cfg (manuscriptFilter proj.binderItems) [] 0 [],
      cfg.indexDepth ≤ r.2.1 → r.2.2.2 ≠ [] →
      ∃ doc : IndexDoc,
        (r.2.2.2 ++ [str "index.codex.yaml"], FContent.indexYaml doc) ∈
          (writeProjectNested cfg now proj).files ∧
        r.2.2.1 ∈ inlineIdsList doc.children)
    ∧ (cfg.indexDepth = 0 →
      ∀ r ∈ containerInfoList cfg
          ((manuscriptFilter proj.binderItems).filter (fun i => isContainer cfg i)) [] 0 [],
        ([str "index.codex.yaml"],
          FContent.indexYaml (masterIndexDoc cfg proj (manuscriptFilter proj.binderItems))) ∈
            (writeProjectNested cfg now proj).files ∧
        r.2.2.1 ∈ inlineIdsList
          (masterIndexDoc cfg proj (manuscriptFilter proj.binderItems)).children) := by
  refine ⟨indexFilePaths_char cfg now proj hy hd, ?_, ?_, ?_⟩
  · intro h0
    rw [indexFilePaths_char cfg now proj hy hd]
    have hfe : (containerInfoList cfg (manuscriptFilter proj.binderItems) [] 0 []).filter
        (fun r => decide (r.2.1 < cfg.indexDepth)) = [] := by
      apply List.filter_eq_nil_iff.mpr
      intro a _
      rw [h0]
      simp
    rw [hfe]
    rfl
  · intro r hr hdep how
    rcases inlined_in_owner_list cfg now (manuscriptFilter proj.binderItems) [] 0 [] [] r
        hr hdep with ⟨h1, _⟩ | ⟨doc, hmem, hin⟩
    · exact absurd h1 how
    · refine ⟨doc, ?_, hin⟩
      rw [writeProjectNested_files cfg now proj hy hd]
      exact List.mem_append_left _ hmem
  · intro h0 r hr
    constructor
    · rw [writeProjectNested_files cfg now proj hy hd]
      exact List.mem_append_right _ (List.mem_singleton.mpr rfl)
    · exact containerInfo_master cfg now h0 (manuscriptFilter proj.binderItems) r hr

/-- Witness for `C3_index_ownership` on the concrete two-level project with
the default configuration. -/
theorem C3_index_ownership_witness :
    indexFilePaths (writeProjectNested defaultCfg [] projTwoLevel) =
      ((containerInfoList defaultCfg (manuscriptFilter projTwoLevel.binderItems) [] 0 []).filter
          (fun r => r.2.1 < defaultCfg.indexDepth)).map
        (fun r => r.1 ++ [str "index.codex.yaml"])
      ++ [[str "index.codex.yaml"]] :=
  (C3_index_ownership defaultCfg [] projTwoLevel rfl rfl).1
